import Mathlib

/-!
# The EOS binary codec (`encoding.go`)

A shallow embedding of the `Decoder` and `Encoder` of `encoding.go`, with the
functions of Go's `encoding/binary` and `time` packages that they call.

Conventions of the embedding:

* a byte is a natural number below 256, a byte slice or a string is a
  `List Nat` of such bytes (`[]byte(s)` and `string(data)` are the identity);
* unsigned machine integers are naturals reduced modulo `2 ^ w`, signed ones
  are integers; `int` is 64 bits wide;
* a function that can raise a Go run-time panic (index or slice bounds out of
  range, a failed type assertion, a method of the zero `reflect.Value`) returns an
  `Option`, and `none` is the panic;
* a Go `error` result is an `Option Error`, `none` being `nil`;
* the two byte slices that the code slices again, the buffer of a `Decoder` and the
  payload of an envelope, come with their `spare` bytes: the bytes of the backing array
  between the length and the capacity of the slice, which `s[lo:hi]` can reach; an
  allocation never fails;
* `Decode` is given a pointer to its target, as all its callers do, and the target is
  written here as the value pointed to;
* the `print`/`println` tracing calls produce no bytes and are left out;
* a Go value is a `Value`: its data together with its dynamic type, as far as the type
  switches and kind switches of `Encode` and `Decode` tell types apart;
* what `encoding.go` calls in the rest of the package (`NameToString`, the message
  registry) is a parameter, `Externals`.
-/

namespace Eos

/-! ## Integer conversions -/

/-- Go conversion `byte(x)` of an unsigned integer. -/
def toByte (x : Nat) : Nat := x % 256

/-- Go conversion `uint16(i)` of a signed integer. -/
def toUint16 (i : Int) : Nat := (i % 2 ^ 16).toNat

/-- Go conversion `uint32(i)` of a signed integer. -/
def toUint32 (i : Int) : Nat := (i % 2 ^ 32).toNat

/-- Go conversion `uint64(i)` of a signed integer. -/
def toUint64 (i : Int) : Nat := (i % 2 ^ 64).toNat

/-- Go conversion `int16(u)` of a 16-bit unsigned integer. -/
def toInt16 (u : Nat) : Int :=
  if u % 2 ^ 16 < 2 ^ 15 then ((u % 2 ^ 16 : Nat) : Int) else ((u % 2 ^ 16 : Nat) : Int) - 2 ^ 16

/-- Go conversion `int(u)` / `int64(u)` of a 64-bit unsigned integer. -/
def toInt64 (u : Nat) : Int :=
  if u % 2 ^ 64 < 2 ^ 63 then ((u % 2 ^ 64 : Nat) : Int) else ((u % 2 ^ 64 : Nat) : Int) - 2 ^ 64

/-- Subtraction `a - b` of two `uint32` values, with wrap-around. -/
def subUint32 (a b : Nat) : Nat := (a + 2 ^ 32 - b) % 2 ^ 32

/-- Wrap-around of a signed 64-bit result. -/
def wrapInt64 (i : Int) : Int := (i + 2 ^ 63) % 2 ^ 64 - 2 ^ 63

/-! ## Go slices -/

/-- The slice expression `s[lo:]`; panics when `lo > len(s)`. -/
def sliceFrom (s : List Nat) (lo : Nat) : Option (List Nat) :=
  if lo ≤ s.length then some (s.drop lo) else none

/-- The slice expression `s[lo:hi]` with integer bounds, on the slice `s` whose backing
array goes on with the bytes `spare`, so that `cap(s) = len(s) + len(spare)`; it panics
unless `0 ≤ lo ≤ hi ≤ cap(s)`, and its elements are those of the backing array from `lo`
to `hi`. -/
def slice (s spare : List Nat) (lo hi : Int) : Option (List Nat) :=
  if 0 ≤ lo ∧ lo ≤ hi ∧ hi ≤ s.length + spare.length then
    some (((s ++ spare).drop lo.toNat).take (hi.toNat - lo.toNat))
  else none

/-- The spare bytes of `s[lo:hi]`: the backing array of `s` from `hi` on. -/
def sliceSpare (s spare : List Nat) (hi : Int) : List Nat :=
  (s ++ spare).drop hi.toNat

/-- The table `TypeSize` of `encoding.go`. -/
structure TypeSizes where
  Byte : Nat
  UInt16 : Nat
  Int16 : Nat
  UInt32 : Nat
  UInt64 : Nat
  SHA256Bytes : Nat
  PublicKey : Nat
  Signature : Nat
  Tstamp : Nat
  BlockTimestamp : Nat

/-- The values of `TypeSize`. -/
def TypeSize : TypeSizes :=
  { Byte := 1, UInt16 := 2, Int16 := 2, UInt32 := 4, UInt64 := 8, SHA256Bytes := 32,
    PublicKey := 34, Signature := 66, Tstamp := 8, BlockTimestamp := 4 }

/-! ## Package `encoding/binary` -/

namespace binary

/-- The constant `binary.MaxVarintLen64`. -/
def MaxVarintLen64 : Nat := 10

/-- The loop of `binary.PutUvarint`: `k` counts the slots of `buf` from index `i`
on (`k = len(buf) - i`), so `k = 0` is the index `i = len(buf)`, where the
write `buf[i] = ...` of either branch panics. -/
def putUvarintLoop : Nat → List Nat → Nat → Nat → Option (List Nat × Nat)
  | 0, _, _, _ => none
  | k + 1, buf, i, x =>
    if 0x80 ≤ x then
      putUvarintLoop k (buf.set i (toByte x ||| 0x80)) (i + 1) (x >>> 7)
    else
      some (buf.set i (toByte x), i + 1)

/-- Go `binary.PutUvarint(buf, x)`: the buffer after the writes and the number of bytes
written; panics when the buffer is too small. -/
def PutUvarint (buf : List Nat) (x : Nat) : Option (List Nat × Nat) :=
  putUvarintLoop buf.length buf 0 x

/-- The loop `for i, b := range buf` of `binary.Uvarint`, with the accumulator `x`
and the shift `s`. -/
def uvarintLoop : List Nat → Nat → Nat → Nat → Nat × Int
  | [], _, _, _ => (0, 0)
  | b :: rest, i, x, s =>
    if i = MaxVarintLen64 then (0, -((i : Int) + 1))
    else if b < 0x80 then
      if i = MaxVarintLen64 - 1 ∧ 1 < b then (0, -((i : Int) + 1))
      else (x ||| ((b <<< s) % 2 ^ 64), (i : Int) + 1)
    else uvarintLoop rest (i + 1) (x ||| (((b &&& 0x7f) <<< s) % 2 ^ 64)) (s + 7)

/-- Go `binary.Uvarint(buf)`: the decoded value and the number of bytes read
(`0`: buffer too small, negative: overflow). -/
def Uvarint (buf : List Nat) : Nat × Int := uvarintLoop buf 0 0 0

namespace LittleEndian

/-- Go `binary.LittleEndian.PutUint16(b, v)`. -/
def PutUint16 (b : List Nat) (v : Nat) : Option (List Nat) :=
  if 1 < b.length then some ((b.set 0 (toByte v)).set 1 (toByte (v >>> 8))) else none

/-- Go `binary.LittleEndian.PutUint32(b, v)`. -/
def PutUint32 (b : List Nat) (v : Nat) : Option (List Nat) :=
  if 3 < b.length then
    some ((((b.set 0 (toByte v)).set 1 (toByte (v >>> 8))).set 2 (toByte (v >>> 16))).set 3
      (toByte (v >>> 24)))
  else none

/-- Go `binary.LittleEndian.PutUint64(b, v)`. -/
def PutUint64 (b : List Nat) (v : Nat) : Option (List Nat) :=
  if 7 < b.length then
    some ((((((((b.set 0 (toByte v)).set 1 (toByte (v >>> 8))).set 2 (toByte (v >>> 16))).set 3
      (toByte (v >>> 24))).set 4 (toByte (v >>> 32))).set 5 (toByte (v >>> 40))).set 6
      (toByte (v >>> 48))).set 7 (toByte (v >>> 56)))
  else none

/-- Go `binary.LittleEndian.Uint16(b)`. -/
def Uint16 (b : List Nat) : Option Nat :=
  match b with
  | b0 :: b1 :: _ => some (b0 ||| ((b1 <<< 8) % 2 ^ 16))
  | _ => none

/-- Go `binary.LittleEndian.Uint32(b)`. -/
def Uint32 (b : List Nat) : Option Nat :=
  match b with
  | b0 :: b1 :: b2 :: b3 :: _ =>
    some (b0 ||| ((b1 <<< 8) % 2 ^ 32) ||| ((b2 <<< 16) % 2 ^ 32) ||| ((b3 <<< 24) % 2 ^ 32))
  | _ => none

/-- Go `binary.LittleEndian.Uint64(b)`. -/
def Uint64 (b : List Nat) : Option Nat :=
  match b with
  | b0 :: b1 :: b2 :: b3 :: b4 :: b5 :: b6 :: b7 :: _ =>
    some (b0 ||| ((b1 <<< 8) % 2 ^ 64) ||| ((b2 <<< 16) % 2 ^ 64) ||| ((b3 <<< 24) % 2 ^ 64)
      ||| ((b4 <<< 32) % 2 ^ 64) ||| ((b5 <<< 40) % 2 ^ 64) ||| ((b6 <<< 48) % 2 ^ 64)
      ||| ((b7 <<< 56) % 2 ^ 64))
  | _ => none

end LittleEndian

end binary

/-! ## Package `time` and the types declared outside `encoding.go` -/

/-- A Go `time.Time`, as the instant it denotes: the seconds since the Unix epoch and the
nanoseconds within the second (the location is not part of the instant). -/
structure Time where
  sec : Int
  nsec : Int
deriving DecidableEq, Repr

namespace time

/-- Go `time.Unix(sec, nsec)`. -/
def Unix (sec nsec : Int) : Time :=
  if nsec < 0 ∨ 1000000000 ≤ nsec then
    { sec := sec + nsec / 1000000000, nsec := nsec % 1000000000 }
  else { sec := sec, nsec := nsec }

end time

/-- Go method `Time.Unix()`. -/
def Time.Unix (t : Time) : Int := t.sec

/-- Type `BlockTimestamp`, a struct embedding `time.Time`. -/
structure BlockTimestamp where
  Time : Time
deriving DecidableEq, Repr

/-- Type `P2PMessageEnvelope`: `Length` is a `uint32`, `Type_` (the field `Type`) a
`P2PMessageType` (a byte), `Payload` a byte slice and `P2PMessage` a pointer to the decoded message
(`none` is the nil pointer); `PayloadSpare` holds the spare bytes of the slice `Payload`. -/
structure P2PMessageEnvelope (μ : Type) where
  Length : Nat
  Type_ : Nat
  Payload : List Nat
  P2PMessage : Option μ
  PayloadSpare : List Nat
deriving DecidableEq, Repr

/-! ## The encoder -/

/-- The `Encoder` of `encoding.go`: `data` is the encode buffer. The fields `output`
and `Order` are read by none of the write functions. -/
structure Encoder where
  data : List Nat
deriving DecidableEq, Repr

namespace Encoder

/-- Method `Encoder.append`. -/
def append (e : Encoder) (bytes : List Nat) : Encoder :=
  { e with data := e.data ++ bytes }

/-- Method `Encoder.writeUVarInt`: `v` is a Go `int`; the scratch buffer has 8 bytes. -/
def writeUVarInt (e : Encoder) (v : Int) : Option Encoder :=
  let buf := List.replicate 8 0
  match binary.PutUvarint buf (toUint64 v) with
  | none => none
  | some (buf, l) => some (e.append (buf.take l))

/-- Method `Encoder.writeByteArray`. -/
def writeByteArray (e : Encoder) (b : List Nat) : Option Encoder :=
  match e.writeUVarInt (b.length : Int) with
  | none => none
  | some e => some (e.append b)

/-- Method `Encoder.writeByte`. -/
def writeByte (e : Encoder) (b : Nat) : Encoder :=
  e.append [b]

/-- Method `Encoder.writeUint16`. -/
def writeUint16 (e : Encoder) (i : Nat) : Option Encoder :=
  let buf := List.replicate TypeSize.UInt16 0
  match binary.LittleEndian.PutUint16 buf i with
  | none => none
  | some buf => some (e.append buf)

/-- Method `Encoder.writeInt16`. -/
def writeInt16 (e : Encoder) (i : Int) : Option Encoder :=
  e.writeUint16 (toUint16 i)

/-- Method `Encoder.writeUint32`. -/
def writeUint32 (e : Encoder) (i : Nat) : Option Encoder :=
  let buf := List.replicate TypeSize.UInt32 0
  match binary.LittleEndian.PutUint32 buf i with
  | none => none
  | some buf => some (e.append buf)

/-- Method `Encoder.writeUint64`. -/
def writeUint64 (e : Encoder) (i : Nat) : Option Encoder :=
  let buf := List.replicate TypeSize.UInt64 0
  match binary.LittleEndian.PutUint64 buf i with
  | none => none
  | some buf => some (e.append buf)

/-- Method `Encoder.writeString`. -/
def writeString (e : Encoder) (s : List Nat) : Option Encoder :=
  e.writeByteArray s

/-- Go `bytes.Repeat([]byte{0}, n)`. -/
def zeros (n : Nat) : List Nat := List.replicate n 0

/-- Method `Encoder.writeSHA256Bytes`. -/
def writeSHA256Bytes (e : Encoder) (s : List Nat) : Encoder :=
  let e := if s.length = 0 then e.append (zeros TypeSize.SHA256Bytes) else e
  e.append s

/-- Method `Encoder.writePublicKey`. -/
def writePublicKey (e : Encoder) (pk : List Nat) : Encoder :=
  let e := if pk.length = 0 then e.append (zeros TypeSize.PublicKey) else e
  e.append pk

/-- Method `Encoder.writeSignature`. -/
def writeSignature (e : Encoder) (s : List Nat) : Encoder :=
  let e := if s.length = 0 then e.append (zeros TypeSize.Signature) else e
  e.append s

/-- Method `Encoder.writeBlockTimestamp`. -/
def writeBlockTimestamp (e : Encoder) (bt : BlockTimestamp) : Option Encoder :=
  let n := toUint32 (wrapInt64 (bt.Time.Unix - 946684800))
  e.writeUint32 n

/-- Method `Encoder.writeBlockP2PMessageEnvelope`. -/
def writeBlockP2PMessageEnvelope {μ : Type} (e : Encoder) (envelope : P2PMessageEnvelope μ) :
    Option Encoder :=
  match e.writeUint32 envelope.Length with
  | none => none
  | some e => some ((e.writeByte (toByte envelope.Type_)).append envelope.Payload)

/-- The case `Varuint32` of `Encoder.Encode`: `d.writeUVarInt(int(cv))`, for `cv` a
`uint32`. -/
def EncodeVaruint32 (e : Encoder) (cv : Nat) : Option Encoder :=
  e.writeUVarInt ((cv % 2 ^ 32 : Nat) : Int)

/-- The case `*P2PMessageEnvelope` of `Encoder.Encode`. -/
def EncodeP2PMessageEnvelope {μ : Type} (e : Encoder) (cv : P2PMessageEnvelope μ) :
    Option Encoder :=
  e.writeBlockP2PMessageEnvelope cv

end Encoder

/-! ## The decoder -/

/-- The errors that `encoding.go` constructs. -/
inductive Error where
  /-- The variable `VarIntBufferSizeError`. -/
  | VarIntBufferSizeError
  /-- The error `byte array: varlen=%d, missing %d bytes`. -/
  | byteArrayMissing (varlen : Nat) (missing : Int)
  /-- The error `decode: unknown p2p message type [%d]`. -/
  | unknownP2PMessageType (t : Nat)
  /-- The error `decode: can only Decode to pointer type`. -/
  | notPointer
  /-- The error `binary: unsupported type ...`. -/
  | unsupportedType
deriving DecidableEq, Repr

/-- The `Decoder` of `encoding.go`; `spare` holds the spare bytes of the slice `data`. -/
structure Decoder where
  data : List Nat
  pos : Nat
  decodeP2PMessage : Bool
  decodeTransactions : Bool
  decodeActions : Bool
  spare : List Nat
deriving DecidableEq, Repr

/-- Function `NewDecoder`, on the slice `data` with the spare bytes `spare`. -/
def NewDecoder (data spare : List Nat) : Decoder :=
  { data := data, pos := 0, decodeP2PMessage := true, decodeTransactions := true,
    decodeActions := true, spare := spare }

namespace Decoder

/-- Method `Decoder.readUvarint`: the value, the error and the decoder afterwards. -/
def readUvarint (d : Decoder) : Option (Nat × Option Error × Decoder) :=
  match sliceFrom d.data d.pos with
  | none => none
  | some buf =>
    let (l, read) := binary.Uvarint buf
    if read ≤ 0 then some (l, some Error.VarIntBufferSizeError, d)
    else some (l, none, { d with pos := d.pos + read.toNat })

/-- Method `Decoder.readByteArray`. The sum `d.pos+int(l)` is an `int` one: `l` comes from
the wire and can be any 64-bit value. -/
def readByteArray (d : Decoder) : Option (List Nat × Option Error × Decoder) :=
  match d.readUvarint with
  | none => none
  | some (_, some err, d) => some ([], some err, d)
  | some (l, none, d) =>
    let hi := wrapInt64 (d.pos + toInt64 l)
    if (d.data.length : Int) < hi then
      some ([], some (Error.byteArrayMissing l (wrapInt64 (hi - d.data.length))), d)
    else
      match slice d.data d.spare d.pos hi with
      | none => none
      | some out => some (out, none, { d with pos := hi.toNat })

/-- Method `Decoder.readByte`. -/
def readByte (d : Decoder) : Option (Nat × Decoder) :=
  match d.data[d.pos]? with
  | none => none
  | some out => some (out, { d with pos := d.pos + 1 })

/-- Method `Decoder.readUint16`. -/
def readUint16 (d : Decoder) : Option (Nat × Decoder) :=
  match sliceFrom d.data d.pos with
  | none => none
  | some b =>
    match binary.LittleEndian.Uint16 b with
    | none => none
    | some out => some (out, { d with pos := d.pos + TypeSize.UInt16 })

/-- Method `Decoder.readInt16`. -/
def readInt16 (d : Decoder) : Option (Int × Decoder) :=
  match d.readUint16 with
  | none => none
  | some (u, d) => some (toInt16 u, d)

/-- Method `Decoder.readUint32`. -/
def readUint32 (d : Decoder) : Option (Nat × Decoder) :=
  match sliceFrom d.data d.pos with
  | none => none
  | some b =>
    match binary.LittleEndian.Uint32 b with
    | none => none
    | some out => some (out, { d with pos := d.pos + TypeSize.UInt32 })

/-- Method `Decoder.readUint64`. -/
def readUint64 (d : Decoder) : Option (Nat × Decoder) :=
  match sliceFrom d.data d.pos with
  | none => none
  | some b =>
    match binary.LittleEndian.Uint64 b with
    | none => none
    | some out => some (out, { d with pos := d.pos + TypeSize.UInt64 })

/-- Method `Decoder.readString`. -/
def readString (d : Decoder) : Option (List Nat × Option Error × Decoder) :=
  match d.readByteArray with
  | none => none
  | some (data, err, d) => some (data, err, d)

/-- Method `Decoder.readSHA256Bytes`. -/
def readSHA256Bytes (d : Decoder) : Option (List Nat × Decoder) :=
  match slice d.data d.spare d.pos (d.pos + TypeSize.SHA256Bytes) with
  | none => none
  | some out => some (out, { d with pos := d.pos + TypeSize.SHA256Bytes })

/-- Method `Decoder.readPublicKey`. -/
def readPublicKey (d : Decoder) : Option (List Nat × Decoder) :=
  match slice d.data d.spare d.pos (d.pos + TypeSize.PublicKey) with
  | none => none
  | some out => some (out, { d with pos := d.pos + TypeSize.PublicKey })

/-- Method `Decoder.readSignature`. -/
def readSignature (d : Decoder) : Option (List Nat × Decoder) :=
  match slice d.data d.spare d.pos (d.pos + TypeSize.Signature) with
  | none => none
  | some out => some (out, { d with pos := d.pos + TypeSize.Signature })

/-- Method `Decoder.readBlockTimestamp`. -/
def readBlockTimestamp (d : Decoder) : Option (BlockTimestamp × Decoder) :=
  match d.readUint32 with
  | none => none
  | some (u, d) =>
    let unixSec : Int := u
    some ({ Time := time.Unix (wrapInt64 (unixSec + 946684800)) 0 }, d)

/-- Method `Decoder.readP2PMessageEnvelope`. The subtraction `out.Length-1` is a
`uint32` one, `int(out.Length)` is `out.Length` itself. The payload is a slice of the
buffer, so its spare bytes are what follows it in the backing array of the buffer. -/
def readP2PMessageEnvelope {μ : Type} (d : Decoder) : Option (P2PMessageEnvelope μ × Decoder) :=
  match d.readUint32 with
  | none => none
  | some (Length, d) =>
    match d.readByte with
    | none => none
    | some (Type_, d) =>
      match slice d.data d.spare d.pos (d.pos + (subUint32 Length 1 : Nat)) with
      | none => none
      | some payload =>
        let spare := sliceSpare d.data d.spare (d.pos + (subUint32 Length 1 : Nat))
        some ({ Length := Length, Type_ := Type_, Payload := payload, P2PMessage := none,
                PayloadSpare := spare },
          { d with pos := d.pos + Length })

/-- Method `Decoder.remaining`. -/
def remaining (d : Decoder) : Int :=
  (d.data.length : Int) - d.pos

/-- The case `*Varuint32` of `Decoder.Decode`: `rv.SetUint(r)` stores `uint32(r)` in
the target, also when `readUvarint` reports an error. -/
def DecodeVaruint32 (d : Decoder) : Option (Nat × Option Error × Decoder) :=
  match d.readUvarint with
  | none => none
  | some (r, err, d) => some (r % 2 ^ 32, err, d)

/-- The case `*P2PMessageEnvelope` of `Decoder.Decode`. `Attributes` is the registry
lookup `envelope.Type.Attributes()`, and `DecodeAs ty sub` is the nested call
`subDecoder.Decode(msg.Interface())` on a fresh value of the registered type `ty`: it gives
the value left in `msg` and the error, which the caller does not inspect. The result is the
envelope stored in the target (`none` when the target is left untouched), the error and
the decoder afterwards. -/
def DecodeP2PMessageEnvelope {τ μ : Type} (Attributes : Nat → Option τ)
    (DecodeAs : τ → Decoder → Option (μ × Option Error)) (d : Decoder) :
    Option (Option (P2PMessageEnvelope μ) × Option Error × Decoder) :=
  match d.readP2PMessageEnvelope with
  | none => none
  | some (envelope, d) =>
    if d.decodeP2PMessage then
      match Attributes envelope.Type_ with
      | none => some (none, some (Error.unknownP2PMessageType envelope.Type_), d)
      | some attr =>
        let subDecoder := NewDecoder envelope.Payload envelope.PayloadSpare
        match DecodeAs attr subDecoder with
        | none => none
        | some (decoded, _) =>
          some (some { envelope with P2PMessage := some decoded }, none, d)
    else
      some (some envelope, none, d)

end Decoder

/-! ## Go values -/

/-- The string types that the type switches of `Encode` and `Decode` name. They are
distinct types: a type switch admits no type twice. -/
inductive StringType where
  | string
  | Name
  | AccountName
  | PermissionName
  | ActionName
  | TableName
  | ScopeName
deriving DecidableEq, Repr

/-- The one-byte types that the type switch of `Decode` names; `byte` is `uint8`. -/
inductive ByteType where
  | byte
  | P2PMessageType
  | TransactionStatus
deriving DecidableEq, Repr

/-- A field of a struct as reflection shows it: `Name` is `t.Field(i).Name`, `tag` is
`t.Field(i).Tag.Get("eos")`, `exported` is what `CanSet()` and `CanInterface()` report for
the field of an addressable struct, `value` is `rv.Field(i)`. -/
structure StructField (α : Type) where
  Name : String
  tag : String
  exported : Bool
  value : α
deriving Repr

/-- A Go value with its dynamic type. The element type of a slice and the key and value
types of a map are given by their zero values (`elem`, `key`, `val`); the entries of a map
are listed in the order in which `MapKeys()` yields them. `nilInterface` is the nil value
of an interface type, `other` a value of a type that neither type switch nor kind switch
knows (a bool, a float, a pointer to such a value). The parameter `μ` is the type of
decoded messages held by an envelope. -/
inductive Value (μ : Type) where
  | string (t : StringType) (s : List Nat)
  | byte (t : ByteType) (b : Nat)
  | int16 (i : Int)
  | uint16 (x : Nat)
  | uint32 (x : Nat)
  | uint64 (x : Nat)
  | varuint32 (x : Nat)
  | sha256Bytes (s : List Nat)
  | publicKey (s : List Nat)
  | signature (s : List Nat)
  | tstamp (t : Time)
  | blockTimestamp (bt : BlockTimestamp)
  | optionalProducerSchedule (fields : List (StructField (Value μ)))
  | envelope (env : P2PMessageEnvelope μ)
  | array (elems : List (Value μ))
  | slice (elem : Value μ) (elems : List (Value μ))
  | struct (fields : List (StructField (Value μ)))
  | mapping (key val : Value μ) (entries : List (Value μ × Value μ))
  | nilInterface
  | other


namespace Value

/-- The test `iface != nil` of the struct loop of `Encode`, negated. -/
def isNil {μ : Type} : Value μ → Bool
  | nilInterface => true
  | _ => false

/-- Whether a value has the type `uint8`: a pointer to a slice of such elements is a
`*[]byte`. -/
def isUint8 {μ : Type} : Value μ → Bool
  | byte ByteType.byte _ => true
  | _ => false

mutual

/-- Go's `==` on two map keys of one comparable type (no slice, map or envelope). -/
def keyEq {μ : Type} : Value μ → Value μ → Bool
  | string t s, string t' s' => decide (t = t' ∧ s = s')
  | byte t b, byte t' b' => decide (t = t' ∧ b = b')
  | int16 i, int16 i' => decide (i = i')
  | uint16 x, uint16 x' => decide (x = x')
  | uint32 x, uint32 x' => decide (x = x')
  | uint64 x, uint64 x' => decide (x = x')
  | varuint32 x, varuint32 x' => decide (x = x')
  | tstamp t, tstamp t' => decide (t = t')
  | blockTimestamp bt, blockTimestamp bt' => decide (bt = bt')
  | optionalProducerSchedule fs, optionalProducerSchedule fs' => keyEqFields fs fs'
  | array vs, array vs' => keyEqList vs vs'
  | struct fs, struct fs' => keyEqFields fs fs'
  | nilInterface, nilInterface => true
  | _, _ => false

/-- Go's `==` on the elements of two arrays. -/
def keyEqList {μ : Type} : List (Value μ) → List (Value μ) → Bool
  | [], [] => true
  | v :: vs, v' :: vs' => keyEq v v' && keyEqList vs vs'
  | _, _ => false

/-- Go's `==` on the fields of two structs. -/
def keyEqFields {μ : Type} : List (StructField (Value μ)) → List (StructField (Value μ)) → Bool
  | [], [] => true
  | f :: fs, f' :: fs' => keyEq f.value f'.value && keyEqFields fs fs'
  | _, _ => false

end

/-- Go `rv.SetMapIndex(kv, vv)` on the entries of a map. -/
def setMapIndex {μ : Type} (kv vv : Value μ) : List (Value μ × Value μ) → List (Value μ × Value μ)
  | [] => [(kv, vv)]
  | (k, v) :: es => if keyEq k kv then (k, vv) :: es else (k, v) :: setMapIndex kv vv es

end Value

/-- What `encoding.go` takes from the rest of the package: the function `NameToString`, the
registry lookup `Attributes()` of a message type, and the decoding of an envelope payload
into a fresh message of a registered type (see `DecodeP2PMessageEnvelope`). -/
structure Externals (τ μ : Type) where
  NameToString : Nat → List Nat
  Attributes : Nat → Option τ
  DecodeAs : τ → Decoder → Option (μ × Option Error)

/-- Go method `Time.UnixNano()`. -/
def Time.UnixNano (t : Time) : Int := wrapInt64 (t.sec * 1000000000 + t.nsec)

/-- Type `Tstamp`, a struct embedding `time.Time`. -/
structure Tstamp where
  Time : Time
deriving DecidableEq, Repr

namespace Encoder

/-- Method `Encoder.writeTstamp`. -/
def writeTstamp (e : Encoder) (t : Tstamp) : Option Encoder :=
  let n := toUint64 t.Time.UnixNano
  e.writeUint64 n

/-- A write function that has returned, followed by the `return` of `Encode` with a nil
error. -/
def returned (r : Option Encoder) : Option (Encoder × Option Error) :=
  match r with
  | none => none
  | some e => some (e, none)

mutual

/-- Method `Encoder.Encode`: the encoder afterwards and the error. -/
def Encode {μ : Type} : Value μ → Encoder → Option (Encoder × Option Error)
  | Value.string t s, d =>
    -- `d.writeString(cv.(string))`: the assertion panics unless the type is `string`
    if t = StringType.string then returned (d.writeString s) else none
  | Value.byte ByteType.byte b, d => some (d.writeByte b, none)
  | Value.byte _ _, d => some (d, some Error.unsupportedType)
  | Value.int16 i, d => returned (d.writeInt16 i)
  | Value.uint16 x, d => returned (d.writeUint16 x)
  | Value.uint32 x, d => returned (d.writeUint32 x)
  | Value.uint64 x, d => returned (d.writeUint64 x)
  | Value.varuint32 x, d => returned (d.EncodeVaruint32 x)
  | Value.sha256Bytes s, d => some (d.writeSHA256Bytes s, none)
  | Value.publicKey s, d => some (d.writePublicKey s, none)
  | Value.signature s, d => some (d.writeSignature s, none)
  | Value.tstamp t, d => returned (d.writeTstamp ⟨t⟩)
  | Value.blockTimestamp bt, d => returned (d.writeBlockTimestamp bt)
  | Value.envelope env, d => returned (d.EncodeP2PMessageEnvelope env)
  | Value.array elems, d =>
    match d.writeUVarInt (elems.length : Int) with
    | none => none
    | some d => EncodeElems elems d
  | Value.slice _ elems, d =>
    match d.writeUVarInt (elems.length : Int) with
    | none => none
    | some d => EncodeElems elems d
  | Value.struct fields, d => EncodeFields fields d
  | Value.optionalProducerSchedule fields, d => EncodeFields fields d
  | Value.mapping _ _ entries, d =>
    match d.writeUVarInt (entries.length : Int) with
    | none => none
    | some d => EncodeEntries entries d
  | Value.nilInterface, _ => none
  | Value.other, d => some (d, some Error.unsupportedType)

/-- The loop `for i := 0; i < l; i++` of the cases `reflect.Array` and `reflect.Slice`
of `Encode`, from the element at hand on. -/
def EncodeElems {μ : Type} : List (Value μ) → Encoder → Option (Encoder × Option Error)
  | [], d => some (d, none)
  | v :: vs, d =>
    match Encode v d with
    | none => none
    | some (d, some err) => some (d, some err)
    | some (d, none) => EncodeElems vs d

/-- The loop of the case `reflect.Struct` of `Encode`, from the field at hand on. -/
def EncodeFields {μ : Type} : List (StructField (Value μ)) → Encoder →
    Option (Encoder × Option Error)
  | [], d => some (d, none)
  | f :: fs, d =>
    if f.tag = "-" then EncodeFields fs d
    else if f.Name ≠ "_" then
      if f.exported then
        if f.value.isNil then EncodeFields fs d
        else
          match Encode f.value d with
          | none => none
          | some (d, some err) => some (d, some err)
          | some (d, none) => EncodeFields fs d
      else EncodeFields fs d
    else EncodeFields fs d

/-- The loop `for _, key := range rv.MapKeys()` of the case `reflect.Map` of `Encode`. -/
def EncodeEntries {μ : Type} : List (Value μ × Value μ) → Encoder →
    Option (Encoder × Option Error)
  | [], d => some (d, none)
  | kv :: es, d =>
    match Encode kv.1 d with
    | none => none
    | some (d, some err) => some (d, some err)
    | some (d, none) =>
      match Encode kv.2 d with
      | none => none
      | some (d, some err) => some (d, some err)
      | some (d, none) => EncodeEntries es d

end

end Encoder

namespace Decoder

/-- Method `Decoder.readTstamp`. -/
def readTstamp (d : Decoder) : Option (Tstamp × Decoder) :=
  match d.readUint64 with
  | none => none
  | some (unixNano, d) => some ({ Time := time.Unix 0 (toInt64 unixNano) }, d)

/-- The loop of the case `reflect.Slice` of `Decode`: `n` elements are still to decode,
each by `decodeElem` into a zero element `elem` of the slice made by `reflect.MakeSlice`.
The result lists the elements of that slice from the one at hand on. -/
def decodeSliceLoop {μ : Type} (decodeElem : Decoder → Option (Value μ × Option Error × Decoder))
    (elem : Value μ) : Nat → Decoder → Option (List (Value μ) × Option Error × Decoder)
  | 0, d => some ([], none, d)
  | n + 1, d =>
    match decodeElem d with
    | none => none
    | some (v, some err, d) => some (v :: List.replicate n elem, some err, d)
    | some (v, none, d) =>
      match decodeSliceLoop decodeElem elem n d with
      | none => none
      | some (vs, err, d) => some (v :: vs, err, d)

/-- The loop of the case `reflect.Map` of `Decode`: `n` entries are still to decode, the
key by `decodeKey` and the value by `decodeVal`, each into a fresh zero value. -/
def decodeMapLoop {μ : Type} (decodeKey decodeVal : Decoder → Option (Value μ × Option Error × Decoder)) :
    Nat → List (Value μ × Value μ) → Decoder →
      Option (List (Value μ × Value μ) × Option Error × Decoder)
  | 0, entries, d => some (entries, none, d)
  | n + 1, entries, d =>
    match decodeKey d with
    | none => none
    | some (_, some err, d) => some (entries, some err, d)
    | some (kv, none, d) =>
      match decodeVal d with
      | none => none
      | some (_, some err, d) => some (entries, some err, d)
      | some (vv, none, d) => decodeMapLoop decodeKey decodeVal n (Value.setMapIndex kv vv entries) d

mutual

/-- Method `Decoder.Decode` on a pointer to the target value `v`: the target afterwards,
the error and the decoder afterwards. -/
def Decode {τ μ : Type} (X : Externals τ μ) : Value μ → Decoder →
    Option (Value μ × Option Error × Decoder)
  | Value.string StringType.string s, d =>
    match d.readString with
    | none => none
    | some (_, some e, d) => some (Value.string StringType.string s, some e, d)
    | some (s, none, d) => some (Value.string StringType.string s, none, d)
  | Value.string t _, d =>
    match d.readUint64 with
    | none => none
    | some (x, d) => some (Value.string t (X.NameToString x), none, d)
  | Value.byte t _, d =>
    match d.readByte with
    | none => none
    | some (b, d) => some (Value.byte t b, none, d)
  | Value.int16 _, d =>
    match d.readInt16 with
    | none => none
    | some (i, d) => some (Value.int16 i, none, d)
  | Value.uint16 _, d =>
    match d.readUint16 with
    | none => none
    | some (x, d) => some (Value.uint16 x, none, d)
  | Value.uint32 _, d =>
    match d.readUint32 with
    | none => none
    | some (x, d) => some (Value.uint32 x, none, d)
  | Value.uint64 _, d =>
    match d.readUint64 with
    | none => none
    | some (x, d) => some (Value.uint64 x, none, d)
  | Value.varuint32 _, d =>
    match d.DecodeVaruint32 with
    | none => none
    | some (r, err, d) => some (Value.varuint32 r, err, d)
  | Value.sha256Bytes _, d =>
    match d.readSHA256Bytes with
    | none => none
    | some (r, d) => some (Value.sha256Bytes r, none, d)
  | Value.publicKey _, d =>
    match d.readPublicKey with
    | none => none
    | some (r, d) => some (Value.publicKey r, none, d)
  | Value.signature _, d =>
    match d.readSignature with
    | none => none
    | some (r, d) => some (Value.signature r, none, d)
  | Value.tstamp _, d =>
    match d.readTstamp with
    | none => none
    | some (r, d) => some (Value.tstamp r.Time, none, d)
  | Value.blockTimestamp _, d =>
    match d.readBlockTimestamp with
    | none => none
    | some (r, d) => some (Value.blockTimestamp r, none, d)
  | Value.optionalProducerSchedule fields, d =>
    match d.readByte with
    | none => none
    | some (isPresent, d) =>
      if isPresent = 0 then some (Value.optionalProducerSchedule fields, none, d)
      else
        match decodeStruct X fields d with
        | none => none
        | some (fields, err, d) => some (Value.optionalProducerSchedule fields, err, d)
  | Value.envelope env, d =>
    match d.DecodeP2PMessageEnvelope X.Attributes X.DecodeAs with
    | none => none
    | some (none, err, d) => some (Value.envelope env, err, d)
    | some (some envelope, err, d) => some (Value.envelope envelope, err, d)
  | Value.array elems, d =>
    match d.readUvarint with
    | none => none
    | some (_, some err, d) => some (Value.array elems, some err, d)
    | some (len, none, d) =>
      match decodeArrayLoop X (toInt64 len).toNat elems d with
      | none => none
      | some (elems, err, d) => some (Value.array elems, err, d)
  | Value.slice elem elems, d =>
    if elem.isUint8 then
      -- the case `*[]byte` of the type switch
      match d.readByteArray with
      | none => none
      | some (data, err, d) => some (Value.slice elem (data.map (Value.byte ByteType.byte)), err, d)
    else
      match d.readUvarint with
      | none => none
      | some (_, some err, d) => some (Value.slice elem elems, some err, d)
      | some (l, none, d) =>
        if toInt64 l < 0 then none
        else
          match decodeSliceLoop (Decode X elem) elem (toInt64 l).toNat d with
          | none => none
          | some (elems, err, d) => some (Value.slice elem elems, err, d)
  | Value.struct fields, d =>
    match decodeStruct X fields d with
    | none => none
    | some (fields, err, d) => some (Value.struct fields, err, d)
  | Value.mapping key val entries, d =>
    match d.readUvarint with
    | none => none
    | some (_, some err, d) => some (Value.mapping key val entries, some err, d)
    | some (l, none, d) =>
      match decodeMapLoop (Decode X key) (Decode X val) (toInt64 l).toNat [] d with
      | none => none
      | some (entries, err, d) => some (Value.mapping key val entries, err, d)
  | Value.nilInterface, d => some (Value.nilInterface, some Error.unsupportedType, d)
  | Value.other, d => some (Value.other, some Error.unsupportedType, d)

/-- The loop `for i := 0; i < int(len); i++` of the case `reflect.Array` of `Decode`: `n`
is the number of iterations left, the list holds the elements of the array from index `i`
on, and `rv.Index(i)` panics once the array is exhausted. -/
def decodeArrayLoop {τ μ : Type} (X : Externals τ μ) : Nat → List (Value μ) → Decoder →
    Option (List (Value μ) × Option Error × Decoder)
  | 0, elems, d => some (elems, none, d)
  | _ + 1, [], _ => none
  | n + 1, v :: vs, d =>
    match Decode X v d with
    | none => none
    | some (v, some err, d) => some (v :: vs, some err, d)
    | some (v, none, d) =>
      match decodeArrayLoop X n vs d with
      | none => none
      | some (vs, err, d) => some (v :: vs, err, d)

/-- Method `Decoder.decodeStruct`, from the field at hand on. -/
def decodeStruct {τ μ : Type} (X : Externals τ μ) : List (StructField (Value μ)) → Decoder →
    Option (List (StructField (Value μ)) × Option Error × Decoder)
  | [], d => some ([], none, d)
  | f :: fs, d =>
    if f.tag = "-" then
      match decodeStruct X fs d with
      | none => none
      | some (fs, err, d) => some (f :: fs, err, d)
    else if f.exported ∧ f.Name ≠ "_" then
      match Decode X f.value d with
      | none => none
      | some (v, some err, d) => some ({ f with value := v } :: fs, some err, d)
      | some (v, none, d) =>
        match decodeStruct X fs d with
        | none => none
        | some (fs, err, d) => some ({ f with value := v } :: fs, err, d)
    else
      match decodeStruct X fs d with
      | none => none
      | some (fs, err, d) => some (f :: fs, err, d)

end

end Decoder

/-- The value reassembled from the 7-bit groups of a varint, least-significant group
first. -/
def reassemble : List Nat → Nat
  | [] => 0
  | b :: bs => b % 128 + 128 * reassemble bs

/-- The 2-byte little-endian layout of `x`, least-significant byte first. -/
def le16 (x : Nat) : List Nat := [x % 256, x / 2 ^ 8 % 256]

/-- The 4-byte little-endian layout of `x`, least-significant byte first. -/
def le32 (x : Nat) : List Nat := [x % 256, x / 2 ^ 8 % 256, x / 2 ^ 16 % 256, x / 2 ^ 24 % 256]

/-- The 8-byte little-endian layout of `x`, least-significant byte first. -/
def le64 (x : Nat) : List Nat :=
  [x % 256, x / 2 ^ 8 % 256, x / 2 ^ 16 % 256, x / 2 ^ 24 % 256, x / 2 ^ 32 % 256,
    x / 2 ^ 40 % 256, x / 2 ^ 48 % 256, x / 2 ^ 56 % 256]

/-- The base-128 little-endian encoding of `x` in the words of the wire format: 7 data
bits per byte, least-significant group first, the continuation bit (128) set on every
byte but the last. -/
def base128 (x : Nat) : List Nat :=
  if x < 128 then [x] else (x % 128 + 128) :: base128 (x / 128)
decreasing_by omega

/-! ## Records, field by field -/

namespace StructField

/-- Whether the struct loop of `Encode` writes a field: it is not marked skip (tag `-`),
not named `_`, exported, and not a nil interface value. -/
def encodes {μ : Type} (f : StructField (Value μ)) : Bool :=
  decide (f.tag ≠ "-") && decide (f.Name ≠ "_") && f.exported && !f.value.isNil

/-- Whether `decodeStruct` reads a field: it is not marked skip (tag `-`), it is
settable (exported), and it is not named `_`. -/
def decodes {α : Type} (f : StructField α) : Bool :=
  decide (f.tag ≠ "-") && f.exported && decide (f.Name ≠ "_")

/-- The values `vs`, in order, put in the place of the values of the fields that
`decodeStruct` reads; every other field is left as it is. -/
def putBack {α : Type} : List (StructField α) → List α → List (StructField α)
  | [], _ => []
  | f :: fs, [] => f :: putBack fs []
  | f :: fs, v :: vs =>
    if f.decodes then { f with value := v } :: putBack fs vs else f :: putBack fs (v :: vs)

end StructField

/-! ## Elements in order -/

/-- A registry that knows the one message type 5, a record with a single string field
`S`, whose payload is decoded by `Decode` itself. -/
def sampleRegistry : Externals (Value Unit) (Value Unit) :=
  { NameToString := fun _ => []
    Attributes := fun t =>
      if t = 5 then some (Value.struct [⟨"S", "", true, Value.string StringType.string []⟩])
      else none
    DecodeAs := fun ty sub =>
      match @Decoder.Decode Unit Unit ⟨fun _ => [], fun _ => none, fun _ _ => none⟩ ty sub with
      | none => none
      | some (v, err, _) => some (v, err) }

/-! ## Arithmetic of bytes -/

set_option maxRecDepth 100000 in
theorem byte_lor_128 : ∀ b < 256, b ||| 128 = b % 128 + 128 := by decide

set_option maxRecDepth 100000 in
theorem byte_and_127 : ∀ b < 256, b &&& 127 = b % 128 := by decide

theorem toByte_lor_128 (x : Nat) : toByte x ||| 0x80 = x % 128 + 128 := by
  have h := byte_lor_128 (x % 256) (Nat.mod_lt _ (by decide))
  simp only [toByte]
  rw [h]
  omega

theorem lor_mul_pow (x b s : Nat) (hx : x < 2 ^ s) : x ||| (b * 2 ^ s) = x + b * 2 ^ s := by
  rw [Nat.lor_comm, Nat.mul_comm b, ← Nat.mul_add_lt_is_or hx b]
  omega

/-! ## The varint writer -/

theorem base128_ne_nil (x : Nat) : base128 x ≠ [] := by
  rw [base128]
  split <;> simp

theorem base128_length_le (n : Nat) : ∀ x, x < 128 ^ (n + 1) → (base128 x).length ≤ n + 1 := by
  induction n with
  | zero =>
    intro x hx
    rw [base128]
    simp at hx
    simp [hx]
  | succ n ih =>
    intro x hx
    rw [base128]
    split
    · simp
    · have h : x / 128 < 128 ^ (n + 1) := by
        rw [Nat.div_lt_iff_lt_mul (by decide)]
        rw [pow_succ] at hx
        exact hx
      have := ih (x / 128) h
      simp
      omega

theorem take_set_succ (a : Nat) : ∀ (buf : List Nat) (i : Nat), i < buf.length →
    (buf.set i a).take (i + 1) = buf.take i ++ [a] := by
  intro buf
  induction buf with
  | nil => intro i h; simp at h
  | cons b bs ih =>
    intro i h
    cases i with
    | zero => simp
    | succ i =>
      simp at h
      simp [ih i h]

theorem putUvarintLoop_base128 : ∀ (k : Nat) (buf : List Nat) (i x : Nat),
    i + k = buf.length → (base128 x).length ≤ k →
    ∃ buf2, binary.putUvarintLoop k buf i x = some (buf2, i + (base128 x).length) ∧
      buf2.take (i + (base128 x).length) = buf.take i ++ base128 x := by
  intro k
  induction k with
  | zero =>
    intro buf i x _ hl
    have := base128_ne_nil x
    cases hb : base128 x with
    | nil => exact absurd hb this
    | cons _ _ => rw [hb] at hl; simp at hl
  | succ k ih =>
    intro buf i x hlen hl
    rw [base128] at hl ⊢
    by_cases hx : x < 128
    · simp only [hx, if_true, binary.putUvarintLoop, List.length_singleton]
      have hnot : ¬ (0x80 ≤ x) := by omega
      simp only [hnot, if_false]
      refine ⟨_, rfl, ?_⟩
      rw [take_set_succ _ buf i (by omega)]
      simp [toByte]
      omega
    · simp only [hx, if_false, binary.putUvarintLoop, List.length_cons] at hl ⊢
      have hge : 0x80 ≤ x := by omega
      simp only [hge, if_true]
      have hlen2 : (i + 1) + k = (buf.set i (toByte x ||| 0x80)).length := by
        simp; omega
      have e7 : x >>> 7 = x / 128 := by rw [Nat.shiftRight_eq_div_pow]
      rw [e7]
      obtain ⟨buf2, h1, h2⟩ := ih (buf.set i (toByte x ||| 0x80)) (i + 1) (x / 128) hlen2
        (by simpa using hl)
      have eidx : i + 1 + (base128 (x / 128)).length = i + ((base128 (x / 128)).length + 1) := by
        omega
      rw [eidx] at h1 h2
      refine ⟨buf2, h1, ?_⟩
      rw [h2, take_set_succ _ buf i (by omega), toByte_lor_128]
      simp

theorem base128_props (x : Nat) :
    (∀ b ∈ base128 x, b < 256) ∧ (∀ b ∈ (base128 x).dropLast, 128 ≤ b) ∧
      (∀ b, (base128 x).getLast? = some b → b < 128 ∧ (b = 0 → x = 0)) ∧
      reassemble (base128 x) = x := by
  induction x using Nat.strong_induction_on with
  | _ x ih =>
    rw [base128]
    by_cases hx : x < 128
    · simp only [hx, if_true]
      refine ⟨?_, ?_, ?_, ?_⟩
      · intro b hb
        simp at hb
        omega
      · intro b hb
        simp at hb
      · intro b hb
        simp at hb
        omega
      · simp [reassemble]
        omega
    · simp only [hx, if_false]
      obtain ⟨h1, h2, h3, h4⟩ := ih (x / 128) (by omega)
      have hne := base128_ne_nil (x / 128)
      cases hb : base128 (x / 128) with
      | nil => exact absurd hb hne
      | cons c cs =>
        rw [hb] at h1 h2 h3 h4
        refine ⟨?_, ?_, ?_, ?_⟩
        · intro b hb
          rcases List.mem_cons.1 hb with h | h
          · omega
          · exact h1 b h
        · intro b hb
          rw [List.dropLast_cons₂] at hb
          rcases List.mem_cons.1 hb with h | h
          · omega
          · exact h2 b h
        · intro b hb
          rw [List.getLast?_cons_cons] at hb
          have := h3 b hb
          omega
        · simp only [reassemble] at h4 ⊢
          rw [h4]
          omega

theorem writeUVarInt_eq (e : Encoder) (v : Int) (h0 : 0 ≤ v) (h56 : v < 2 ^ 56) :
    e.writeUVarInt v = some (e.append (base128 v.toNat)) := by
  have hu : toUint64 v = v.toNat := by
    unfold toUint64
    rw [Int.emod_eq_of_lt h0 (by omega)]
  have hlt : v.toNat < 128 ^ (7 + 1) := by
    have : (v.toNat : Int) = v := Int.toNat_of_nonneg h0
    norm_num
    omega
  have hl := base128_length_le 7 v.toNat hlt
  obtain ⟨buf2, h1, h2⟩ := putUvarintLoop_base128 8 (List.replicate 8 0) 0 v.toNat (by simp) hl
  simp only [Encoder.writeUVarInt, binary.PutUvarint, hu, List.length_replicate, h1]
  simp only [Nat.zero_add] at h2
  simp [h2]

/-! ## The varint reader -/

theorem group_shift_lt (b i : Nat) (hb : b < 128) (hi : i ≤ 8) : b * 2 ^ (7 * i) < 2 ^ 64 := by
  have h1 : 2 ^ (7 * i) ≤ 2 ^ 56 := Nat.pow_le_pow_right (by decide) (by omega)
  have h2 : b * 2 ^ (7 * i) ≤ 127 * 2 ^ 56 := Nat.mul_le_mul (by omega) h1
  have h3 : 127 * 2 ^ 56 < 2 ^ 64 := by norm_num
  omega

theorem uvarintLoop_base128 (rest : List Nat) : ∀ (x i acc : Nat), acc < 2 ^ (7 * i) →
    i + (base128 x).length ≤ 9 →
    binary.uvarintLoop (base128 x ++ rest) i acc (7 * i) =
      (acc + x * 2 ^ (7 * i), ((i + (base128 x).length : Nat) : Int)) := by
  intro x
  induction x using Nat.strong_induction_on with
  | _ x ih =>
    intro i acc hacc hlen
    rw [base128] at hlen ⊢
    by_cases hx : x < 128
    · simp only [hx, if_true, List.length_singleton] at hlen ⊢
      have hi : ¬ (i = binary.MaxVarintLen64) := by simp [binary.MaxVarintLen64]; omega
      have hi9 : ¬ (i = binary.MaxVarintLen64 - 1 ∧ 1 < x) := by
        simp [binary.MaxVarintLen64]; omega
      have hx80 : x < 0x80 := hx
      simp only [List.singleton_append, binary.uvarintLoop, hi, hi9, hx80, if_true, if_false]
      rw [Nat.shiftLeft_eq, Nat.mod_eq_of_lt (group_shift_lt x i hx (by omega)),
        lor_mul_pow acc x (7 * i) hacc]
      simp
    · simp only [hx, if_false, List.length_cons] at hlen ⊢
      have hi : ¬ (i = binary.MaxVarintLen64) := by simp [binary.MaxVarintLen64]; omega
      have hb80 : ¬ (x % 128 + 128 < 0x80) := by omega
      simp only [List.cons_append, binary.uvarintLoop, hi, hb80, if_false, List.append_eq]
      have hand : (x % 128 + 128) &&& 0x7f = x % 128 := by
        rw [byte_and_127 _ (by omega)]
        omega
      have hr : x % 128 < 128 := Nat.mod_lt _ (by decide)
      rw [hand, Nat.shiftLeft_eq, Nat.mod_eq_of_lt (group_shift_lt (x % 128) i hr (by omega)),
        lor_mul_pow acc (x % 128) (7 * i) hacc]
      have hs : 7 * i + 7 = 7 * (i + 1) := by ring
      have hp : 2 ^ (7 * (i + 1)) = 2 ^ (7 * i) * 128 := by
        rw [← hs, pow_add]
        norm_num
      have hacc2 : acc + x % 128 * 2 ^ (7 * i) < 2 ^ (7 * (i + 1)) := by
        rw [hp]
        have : x % 128 * 2 ^ (7 * i) ≤ 127 * 2 ^ (7 * i) := Nat.mul_le_mul (by omega) le_rfl
        omega
      rw [hs, ih (x / 128) (by omega) (i + 1) _ hacc2 (by omega), hp]
      have hdm := Nat.div_add_mod x 128
      have e1 : acc + x % 128 * 2 ^ (7 * i) + x / 128 * (2 ^ (7 * i) * 128) =
          acc + (128 * (x / 128) + x % 128) * 2 ^ (7 * i) := by ring
      rw [e1, hdm]
      have e2 : i + 1 + (base128 (x / 128)).length = i + ((base128 (x / 128)).length + 1) := by
        omega
      rw [e2]

theorem Uvarint_base128 (x : Nat) (rest : List Nat) (h : (base128 x).length ≤ 9) :
    binary.Uvarint (base128 x ++ rest) = (x, ((base128 x).length : Int)) := by
  have := uvarintLoop_base128 rest x 0 0 (by simp) (by omega)
  simpa [binary.Uvarint] using this

theorem sliceFrom_append (pre s : List Nat) : sliceFrom (pre ++ s) pre.length = some s := by
  simp [sliceFrom]

theorem readUvarint_base128 (x : Nat) (pre rest : List Nat) (f1 f2 f3 : Bool) (sp : List Nat)
    (h : (base128 x).length ≤ 9) :
    Decoder.readUvarint ⟨pre ++ base128 x ++ rest, pre.length, f1, f2, f3, sp⟩ =
      some (x, none, ⟨pre ++ base128 x ++ rest, pre.length + (base128 x).length,
        f1, f2, f3, sp⟩) := by
  have hpos : ¬ (((base128 x).length : Int) ≤ 0) := by
    have := base128_ne_nil x
    cases hb : base128 x with
    | nil => exact absurd hb this
    | cons _ _ => simp
  simp only [Decoder.readUvarint, List.append_assoc, sliceFrom_append, Uvarint_base128 x rest h,
    hpos, if_false, Int.toNat_ofNat]

/-! ## Fixed-width integers -/

theorem writeUint16_eq (e : Encoder) (x : Nat) : e.writeUint16 x = some (e.append (le16 x)) := by
  simp [Encoder.writeUint16, binary.LittleEndian.PutUint16, TypeSize, List.replicate, toByte,
    Nat.shiftRight_eq_div_pow, le16]

theorem writeUint32_eq (e : Encoder) (x : Nat) : e.writeUint32 x = some (e.append (le32 x)) := by
  simp [Encoder.writeUint32, binary.LittleEndian.PutUint32, TypeSize, List.replicate, toByte,
    Nat.shiftRight_eq_div_pow, le32]

theorem writeUint64_eq (e : Encoder) (x : Nat) : e.writeUint64 x = some (e.append (le64 x)) := by
  simp [Encoder.writeUint64, binary.LittleEndian.PutUint64, TypeSize, List.replicate, toByte,
    Nat.shiftRight_eq_div_pow, le64]

theorem Uint16_cons (b0 b1 : Nat) (rest : List Nat) (h0 : b0 < 256) (h1 : b1 < 256) :
    binary.LittleEndian.Uint16 (b0 :: b1 :: rest) = some (b0 + b1 * 2 ^ 8) := by
  simp only [binary.LittleEndian.Uint16, Nat.shiftLeft_eq]
  rw [Nat.mod_eq_of_lt (by omega), lor_mul_pow b0 b1 8 (by omega)]

theorem Uint32_cons (b0 b1 b2 b3 : Nat) (rest : List Nat) (h0 : b0 < 256) (h1 : b1 < 256)
    (h2 : b2 < 256) (h3 : b3 < 256) :
    binary.LittleEndian.Uint32 (b0 :: b1 :: b2 :: b3 :: rest) =
      some (b0 + b1 * 2 ^ 8 + b2 * 2 ^ 16 + b3 * 2 ^ 24) := by
  simp only [binary.LittleEndian.Uint32, Nat.shiftLeft_eq]
  rw [Nat.mod_eq_of_lt (a := b1 * 2 ^ 8) (by omega), Nat.mod_eq_of_lt (a := b2 * 2 ^ 16) (by omega),
    Nat.mod_eq_of_lt (a := b3 * 2 ^ 24) (by omega), lor_mul_pow b0 b1 8 (by omega),
    lor_mul_pow _ b2 16 (by omega), lor_mul_pow _ b3 24 (by omega)]

theorem Uint64_cons (b0 b1 b2 b3 b4 b5 b6 b7 : Nat) (rest : List Nat) (h0 : b0 < 256)
    (h1 : b1 < 256) (h2 : b2 < 256) (h3 : b3 < 256) (h4 : b4 < 256) (h5 : b5 < 256)
    (h6 : b6 < 256) (h7 : b7 < 256) :
    binary.LittleEndian.Uint64 (b0 :: b1 :: b2 :: b3 :: b4 :: b5 :: b6 :: b7 :: rest) =
      some (b0 + b1 * 2 ^ 8 + b2 * 2 ^ 16 + b3 * 2 ^ 24 + b4 * 2 ^ 32 + b5 * 2 ^ 40 + b6 * 2 ^ 48
        + b7 * 2 ^ 56) := by
  simp only [binary.LittleEndian.Uint64, Nat.shiftLeft_eq]
  rw [Nat.mod_eq_of_lt (a := b1 * 2 ^ 8) (by omega), Nat.mod_eq_of_lt (a := b2 * 2 ^ 16) (by omega),
    Nat.mod_eq_of_lt (a := b3 * 2 ^ 24) (by omega), Nat.mod_eq_of_lt (a := b4 * 2 ^ 32) (by omega),
    Nat.mod_eq_of_lt (a := b5 * 2 ^ 40) (by omega), Nat.mod_eq_of_lt (a := b6 * 2 ^ 48) (by omega),
    Nat.mod_eq_of_lt (a := b7 * 2 ^ 56) (by omega), lor_mul_pow b0 b1 8 (by omega),
    lor_mul_pow _ b2 16 (by omega), lor_mul_pow _ b3 24 (by omega),
    lor_mul_pow _ b4 32 (by omega), lor_mul_pow _ b5 40 (by omega),
    lor_mul_pow _ b6 48 (by omega), lor_mul_pow _ b7 56 (by omega)]

theorem Uint16_le16 (x : Nat) (rest : List Nat) (h : x < 2 ^ 16) :
    binary.LittleEndian.Uint16 (le16 x ++ rest) = some x := by
  simp only [le16, List.cons_append, List.nil_append]
  rw [Uint16_cons _ _ _ (Nat.mod_lt _ (by decide)) (Nat.mod_lt _ (by decide))]
  congr 1
  omega

theorem Uint32_le32 (x : Nat) (rest : List Nat) (h : x < 2 ^ 32) :
    binary.LittleEndian.Uint32 (le32 x ++ rest) = some x := by
  simp only [le32, List.cons_append, List.nil_append]
  rw [Uint32_cons _ _ _ _ _ (Nat.mod_lt _ (by decide)) (Nat.mod_lt _ (by decide))
    (Nat.mod_lt _ (by decide)) (Nat.mod_lt _ (by decide))]
  congr 1
  omega

theorem Uint64_le64 (x : Nat) (rest : List Nat) (h : x < 2 ^ 64) :
    binary.LittleEndian.Uint64 (le64 x ++ rest) = some x := by
  simp only [le64, List.cons_append, List.nil_append]
  rw [Uint64_cons _ _ _ _ _ _ _ _ _ (Nat.mod_lt _ (by decide)) (Nat.mod_lt _ (by decide))
    (Nat.mod_lt _ (by decide)) (Nat.mod_lt _ (by decide)) (Nat.mod_lt _ (by decide))
    (Nat.mod_lt _ (by decide)) (Nat.mod_lt _ (by decide)) (Nat.mod_lt _ (by decide))]
  congr 1
  omega

theorem readUint16_le16 (x : Nat) (pre rest : List Nat) (f1 f2 f3 : Bool)
    (sp : List Nat) (h : x < 2 ^ 16) :
    Decoder.readUint16 ⟨pre ++ le16 x ++ rest, pre.length, f1, f2, f3, sp⟩ =
      some (x, ⟨pre ++ le16 x ++ rest, pre.length + 2, f1, f2, f3, sp⟩) := by
  simp only [Decoder.readUint16, List.append_assoc, sliceFrom_append, Uint16_le16 x rest h,
    TypeSize]

theorem readUint32_le32 (x : Nat) (pre rest : List Nat) (f1 f2 f3 : Bool)
    (sp : List Nat) (h : x < 2 ^ 32) :
    Decoder.readUint32 ⟨pre ++ le32 x ++ rest, pre.length, f1, f2, f3, sp⟩ =
      some (x, ⟨pre ++ le32 x ++ rest, pre.length + 4, f1, f2, f3, sp⟩) := by
  simp only [Decoder.readUint32, List.append_assoc, sliceFrom_append, Uint32_le32 x rest h,
    TypeSize]

theorem readUint64_le64 (x : Nat) (pre rest : List Nat) (f1 f2 f3 : Bool)
    (sp : List Nat) (h : x < 2 ^ 64) :
    Decoder.readUint64 ⟨pre ++ le64 x ++ rest, pre.length, f1, f2, f3, sp⟩ =
      some (x, ⟨pre ++ le64 x ++ rest, pre.length + 8, f1, f2, f3, sp⟩) := by
  simp only [Decoder.readUint64, List.append_assoc, sliceFrom_append, Uint64_le64 x rest h,
    TypeSize]

theorem toUint16_lt (i : Int) : toUint16 i < 2 ^ 16 := by
  unfold toUint16
  have h1 : 0 ≤ i % 2 ^ 16 := Int.emod_nonneg _ (by norm_num)
  have h2 : i % 2 ^ 16 < 2 ^ 16 := Int.emod_lt_of_pos _ (by norm_num)
  omega

theorem toInt16_toUint16 (i : Int) (h0 : -2 ^ 15 ≤ i) (h1 : i < 2 ^ 15) :
    toInt16 (toUint16 i) = i := by
  have hlt := toUint16_lt i
  have hc : ((toUint16 i : Nat) : Int) = i % 2 ^ 16 := by
    unfold toUint16
    exact Int.toNat_of_nonneg (Int.emod_nonneg _ (by norm_num))
  unfold toInt16
  rw [Nat.mod_eq_of_lt hlt]
  split <;> omega

/-! ## Reading at a known place of the buffer -/

theorem slice_at (data sp a s r : List Nat) (lo hi : Int) (hd : data = a ++ s ++ r)
    (hlo : lo = a.length) (hhi : hi = lo + s.length) : slice data sp lo hi = some s := by
  subst hd hlo hhi
  have h1 : (0 : Int) ≤ (a.length : Int) := Int.ofNat_nonneg _
  have h2 : ((a.length : Int) + (s.length : Int)).toNat - (a.length : Int).toNat = s.length := by
    omega
  have h3 : (a.length : Int) + (s.length : Int) ≤
      ((a ++ s ++ r).length : Int) + (sp.length : Int) := by
    simp only [List.length_append, Nat.cast_add]
    omega
  have h4 : (a.length : Int) ≤ (a.length : Int) + (s.length : Int) := by omega
  unfold slice
  rw [if_pos ⟨h1, h4, h3⟩, h2, Int.toNat_ofNat, List.append_assoc, List.append_assoc,
    List.drop_left, List.take_left]

theorem sliceFrom_at (data a r : List Nat) (pos : Nat) (hd : data = a ++ r)
    (hp : pos = a.length) : sliceFrom data pos = some r := by
  subst hd hp
  exact sliceFrom_append a r

theorem readUvarint_at (data a r : List Nat) (x pos : Nat) (f1 f2 f3 : Bool) (sp : List Nat)
    (hd : data = a ++ base128 x ++ r) (hp : pos = a.length) (hx : (base128 x).length ≤ 9) :
    Decoder.readUvarint ⟨data, pos, f1, f2, f3, sp⟩ =
      some (x, none, ⟨data, pos + (base128 x).length, f1, f2, f3, sp⟩) := by
  subst hd hp
  exact readUvarint_base128 x a r f1 f2 f3 sp hx

/-! ## Length-prefixed bytes -/

theorem wrapInt64_small (i : Int) (h0 : -2 ^ 63 ≤ i) (h1 : i < 2 ^ 63) : wrapInt64 i = i := by
  unfold wrapInt64
  rw [Int.emod_eq_of_lt (by omega) (by omega)]
  omega

theorem toInt64_small (n : Nat) (h : n < 2 ^ 63) : toInt64 n = n := by
  unfold toInt64
  have : n % 2 ^ 64 = n := Nat.mod_eq_of_lt (by omega)
  rw [this, if_pos h]

theorem writeByteArray_eq (e : Encoder) (b : List Nat) (h : b.length < 2 ^ 56) :
    e.writeByteArray b = some (e.append (base128 b.length ++ b)) := by
  have hw := writeUVarInt_eq e (b.length : Int) (Int.ofNat_nonneg _) (by exact_mod_cast h)
  simp only [Encoder.writeByteArray, hw, Int.toNat_ofNat, Encoder.append, List.append_assoc]

theorem base128_length_le_8 (n : Nat) (h : n < 2 ^ 56) : (base128 n).length ≤ 8 :=
  base128_length_le 7 n (by norm_num; omega)

theorem readByteArray_eq (b pre rest : List Nat) (f1 f2 f3 : Bool)
    (sp : List Nat) (h : b.length < 2 ^ 56)
    (hbuf : (pre ++ (base128 b.length ++ b) ++ rest).length < 2 ^ 63) :
    Decoder.readByteArray ⟨pre ++ (base128 b.length ++ b) ++ rest, pre.length, f1, f2, f3, sp⟩ =
      some (b, none, ⟨pre ++ (base128 b.length ++ b) ++ rest,
        pre.length + (base128 b.length).length + b.length, f1, f2, f3, sp⟩) := by
  have h8 := base128_length_le_8 b.length h
  have hu := readUvarint_at (pre ++ (base128 b.length ++ b) ++ rest) pre (b ++ rest) b.length
    pre.length f1 f2 f3 sp (by simp) rfl (by omega)
  have hi := toInt64_small b.length (by omega)
  simp only [List.length_append] at hbuf
  have hw : wrapInt64 (((pre.length + (base128 b.length).length : Nat) : Int) + (b.length : Int)) =
      ((pre.length + (base128 b.length).length : Nat) : Int) + (b.length : Int) :=
    wrapInt64_small _ (by omega) (by omega)
  have hs := slice_at (pre ++ (base128 b.length ++ b) ++ rest) sp (pre ++ base128 b.length) b rest
    ((pre.length + (base128 b.length).length : Nat) : Int)
    (((pre.length + (base128 b.length).length : Nat) : Int) + (b.length : Int)) (by simp)
    (by simp) rfl
  have hlt : ¬ (((pre ++ (base128 b.length ++ b) ++ rest).length : Int) <
      ((pre.length + (base128 b.length).length : Nat) : Int) + (b.length : Int)) := by
    simp only [List.length_append, Nat.cast_add]
    omega
  have hn : (((pre.length + (base128 b.length).length : Nat) : Int) + (b.length : Int)).toNat =
      pre.length + (base128 b.length).length + b.length := by omega
  simp only [Decoder.readByteArray, hu, hi, hw, hlt, if_false, hs, hn]

/-! ## Block timestamps -/

theorem toUint32_small (i : Int) (h0 : 0 ≤ i) (h1 : i < 2 ^ 32) : toUint32 i = i.toNat := by
  unfold toUint32
  rw [Int.emod_eq_of_lt h0 h1]

/-! ## The message envelope -/

theorem readSHA256Bytes_at (s pre rest : List Nat) (f1 f2 f3 : Bool)
    (sp : List Nat) (h : s.length = 32) :
    Decoder.readSHA256Bytes ⟨pre ++ s ++ rest, pre.length, f1, f2, f3, sp⟩ =
      some (s, ⟨pre ++ s ++ rest, pre.length + 32, f1, f2, f3, sp⟩) := by
  have hs := slice_at (pre ++ s ++ rest) sp pre s rest (pre.length : Int)
    ((pre.length : Int) + (TypeSize.SHA256Bytes : Nat)) rfl rfl (by simp [TypeSize, h])
  unfold Decoder.readSHA256Bytes
  dsimp only
  rw [hs]
  rfl

/-! ## Reads past the end of the buffer -/

theorem sliceFrom_length (s r : List Nat) (lo : Nat) (h : sliceFrom s lo = some r) :
    r.length = s.length - lo := by
  unfold sliceFrom at h
  split at h
  · cases h
    simp
  · cases h

theorem Uint16_short (b : List Nat) (h : b.length < 2) : binary.LittleEndian.Uint16 b = none := by
  rcases b with _ | ⟨_, _ | ⟨_, _⟩⟩
  · rfl
  · rfl
  · simp only [List.length_cons] at h
    omega

theorem Uint32_short (b : List Nat) (h : b.length < 4) : binary.LittleEndian.Uint32 b = none := by
  rcases b with _ | ⟨_, _ | ⟨_, _ | ⟨_, _ | ⟨_, _⟩⟩⟩⟩
  · rfl
  · rfl
  · rfl
  · rfl
  · simp only [List.length_cons] at h
    omega

theorem Uint64_short (b : List Nat) (h : b.length < 8) : binary.LittleEndian.Uint64 b = none := by
  rcases b with _ | ⟨_, _ | ⟨_, _ | ⟨_, _ | ⟨_, _ | ⟨_, _ | ⟨_, _ | ⟨_, _ | ⟨_, _⟩⟩⟩⟩⟩⟩⟩⟩
  · rfl
  · rfl
  · rfl
  · rfl
  · rfl
  · rfl
  · rfl
  · rfl
  · simp only [List.length_cons] at h
    omega

theorem slice_short (data sp : List Nat) (pos n : Nat)
    (h : data.length + sp.length < pos + n) :
    slice data sp (pos : Int) ((pos : Int) + (n : Nat)) = none := by
  unfold slice
  rw [if_neg]
  intro hc
  omega

/-- With fewer than `N` bytes between the cursor and the end of the buffer, the readers of
the integers panic; the readers of the blobs, which take `d.data[d.pos : d.pos+N]`, panic
when fewer than `N` bytes are left up to the capacity of the buffer. None of them has an
error result. -/
theorem truncated_reads_panic (d : Decoder) :
    (d.remaining < 1 → d.readByte = none) ∧
    (d.remaining < 2 → d.readUint16 = none ∧ d.readInt16 = none) ∧
    (d.remaining < 4 → d.readUint32 = none) ∧
    (d.remaining < 8 → d.readUint64 = none) ∧
    (d.remaining + d.spare.length < 32 → d.readSHA256Bytes = none) ∧
    (d.remaining + d.spare.length < 34 → d.readPublicKey = none) ∧
    (d.remaining + d.spare.length < 66 → d.readSignature = none) := by
  unfold Decoder.remaining
  refine ⟨?_, ?_, ?_, ?_, ?_, ?_, ?_⟩
  · intro h
    have hn : d.data[d.pos]? = none := List.getElem?_eq_none (by omega)
    simp only [Decoder.readByte, hn]
  · intro h
    have hu : d.readUint16 = none := by
      unfold Decoder.readUint16
      cases hs : sliceFrom d.data d.pos with
      | none => rfl
      | some r =>
        have hl := sliceFrom_length _ _ _ hs
        simp only [Uint16_short r (by omega)]
    exact ⟨hu, by simp only [Decoder.readInt16, hu]⟩
  · intro h
    unfold Decoder.readUint32
    cases hs : sliceFrom d.data d.pos with
    | none => rfl
    | some r =>
      have hl := sliceFrom_length _ _ _ hs
      simp only [Uint32_short r (by omega)]
  · intro h
    unfold Decoder.readUint64
    cases hs : sliceFrom d.data d.pos with
    | none => rfl
    | some r =>
      have hl := sliceFrom_length _ _ _ hs
      simp only [Uint64_short r (by omega)]
  · intro h
    have hs := slice_short d.data d.spare d.pos TypeSize.SHA256Bytes (by simp only [TypeSize]; omega)
    simp only [Decoder.readSHA256Bytes, hs]
  · intro h
    have hs := slice_short d.data d.spare d.pos TypeSize.PublicKey (by simp only [TypeSize]; omega)
    simp only [Decoder.readPublicKey, hs]
  · intro h
    have hs := slice_short d.data d.spare d.pos TypeSize.Signature (by simp only [TypeSize]; omega)
    simp only [Decoder.readSignature, hs]

/-- A blob reader reaches past the length of the buffer into its spare bytes: on a decoder
over a slice with enough capacity, such as the one made from the payload of an envelope,
`readSHA256Bytes` returns the bytes that follow the slice in its backing array. -/
theorem readSHA256Bytes_into_spare (pre s1 s2 sp : List Nat) (f1 f2 f3 : Bool)
    (h : s1.length + s2.length = 32) :
    Decoder.readSHA256Bytes ⟨pre ++ s1, pre.length, f1, f2, f3, s2 ++ sp⟩ =
      some (s1 ++ s2, ⟨pre ++ s1, pre.length + 32, f1, f2, f3, s2 ++ sp⟩) := by
  have hs : slice (pre ++ s1) (s2 ++ sp) (pre.length : Int)
      ((pre.length : Int) + (TypeSize.SHA256Bytes : Nat)) = some (s1 ++ s2) := by
    unfold slice
    have hc : (0 : Int) ≤ (pre.length : Int) ∧
        (pre.length : Int) ≤ (pre.length : Int) + (TypeSize.SHA256Bytes : Nat) ∧
        (pre.length : Int) + (TypeSize.SHA256Bytes : Nat) ≤
          ((pre ++ s1).length : Int) + ((s2 ++ sp).length : Int) := by
      simp only [List.length_append, Nat.cast_add, TypeSize]
      omega
    have hn : ((pre.length : Int) + (TypeSize.SHA256Bytes : Nat)).toNat -
        (pre.length : Int).toNat = (s1 ++ s2).length := by
      simp only [List.length_append, TypeSize]
      omega
    rw [if_pos hc, hn, Int.toNat_ofNat]
    have ha : pre ++ s1 ++ (s2 ++ sp) = pre ++ ((s1 ++ s2) ++ sp) := by
      simp only [List.append_assoc]
    rw [ha, List.drop_left, List.take_left]
  unfold Decoder.readSHA256Bytes
  dsimp only
  rw [hs]
  rfl

/-! ## Malformed and oversized varints -/

theorem uvarintLoop_no_terminator : ∀ (bs : List Nat) (i x s : Nat), (∀ b ∈ bs, 128 ≤ b) →
    (binary.uvarintLoop bs i x s).1 = 0 ∧ (binary.uvarintLoop bs i x s).2 ≤ 0 := by
  intro bs
  induction bs with
  | nil => intro i x s _; simp [binary.uvarintLoop]
  | cons b bs ih =>
    intro i x s h
    have hb : ¬ (b < 0x80) := by
      have := h b (List.mem_cons_self _ _)
      omega
    unfold binary.uvarintLoop
    by_cases hi : i = binary.MaxVarintLen64
    · simp only [hi, if_true]
      constructor
      · trivial
      · omega
    · simp only [hi, if_false, hb]
      exact ih _ _ _ (fun c hc => h c (List.mem_cons_of_mem _ hc))

theorem readUvarint_no_terminator (pre cont : List Nat) (f1 f2 f3 : Bool) (sp : List Nat)
    (h : ∀ b ∈ cont, 128 ≤ b) :
    Decoder.readUvarint ⟨pre ++ cont, pre.length, f1, f2, f3, sp⟩ =
      some (0, some Error.VarIntBufferSizeError, ⟨pre ++ cont, pre.length, f1, f2, f3, sp⟩) := by
  obtain ⟨h1, h2⟩ := uvarintLoop_no_terminator cont 0 0 0 h
  unfold Decoder.readUvarint
  rw [sliceFrom_append]
  dsimp only
  unfold binary.Uvarint
  cases hr : binary.uvarintLoop cont 0 0 0 with
  | mk l read =>
    rw [hr] at h1 h2
    simp only at h1 h2
    subst h1
    simp only [h2, if_true]

theorem reassemble_append_lt (bs : List Nat) (t : Nat) :
    reassemble (bs ++ [t]) < 2 ^ (7 * (bs.length + 1)) := by
  induction bs with
  | nil => simp [reassemble]; omega
  | cons b bs ih =>
    simp only [List.cons_append, reassemble, List.length_cons, List.append_eq]
    have hp : 2 ^ (7 * (bs.length + 1 + 1)) = 128 * 2 ^ (7 * (bs.length + 1)) := by
      rw [show 7 * (bs.length + 1 + 1) = 7 + 7 * (bs.length + 1) by ring, pow_add]
      norm_num
    have hb : b % 128 < 128 := Nat.mod_lt _ (by decide)
    omega

theorem reassemble_last_ge (bs : List Nat) (t : Nat) (ht : t < 128) :
    t * 2 ^ (7 * bs.length) ≤ reassemble (bs ++ [t]) := by
  induction bs with
  | nil =>
    simp [reassemble]
    omega
  | cons b bs ih =>
    simp only [List.cons_append, reassemble, List.length_cons, List.append_eq]
    have hp : 2 ^ (7 * (bs.length + 1)) = 128 * 2 ^ (7 * bs.length) := by
      rw [show 7 * (bs.length + 1) = 7 + 7 * bs.length by ring, pow_add]
      norm_num
    rw [hp]
    have : t * (128 * 2 ^ (7 * bs.length)) = 128 * (t * 2 ^ (7 * bs.length)) := by ring
    omega

theorem uvarintLoop_groups (rest : List Nat) (t : Nat) (ht : t < 128) :
    ∀ (bs : List Nat) (i acc : Nat), acc < 2 ^ (7 * i) → i + bs.length ≤ 9 →
      (∀ b ∈ bs, 128 ≤ b ∧ b < 256) → (i + bs.length = 9 → t ≤ 1) →
      binary.uvarintLoop (bs ++ t :: rest) i acc (7 * i) =
        (acc + reassemble (bs ++ [t]) * 2 ^ (7 * i), ((i + bs.length + 1 : Nat) : Int)) := by
  intro bs
  induction bs with
  | nil =>
    intro i acc hacc hlen _ h9
    simp only [List.length_nil, Nat.add_zero] at hlen h9
    have hi : ¬ (i = binary.MaxVarintLen64) := by simp [binary.MaxVarintLen64]; omega
    have hi9 : ¬ (i = binary.MaxVarintLen64 - 1 ∧ 1 < t) := by
      simp only [binary.MaxVarintLen64]
      intro hc
      have := h9 hc.1
      omega
    have ht80 : t < 0x80 := ht
    have hfit : t * 2 ^ (7 * i) < 2 ^ 64 := by
      by_cases h8 : i ≤ 8
      · exact group_shift_lt t i ht h8
      · have e9 : i = 9 := by omega
        have := h9 e9
        subst e9
        have : t * 2 ^ 63 ≤ 1 * 2 ^ 63 := Nat.mul_le_mul_right _ this
        norm_num at this ⊢
        omega
    simp only [List.nil_append, binary.uvarintLoop, hi, hi9, ht80, if_true, if_false]
    rw [Nat.shiftLeft_eq, Nat.mod_eq_of_lt hfit, lor_mul_pow acc t (7 * i) hacc]
    simp [reassemble, Nat.mod_eq_of_lt ht]
  | cons b bs ih =>
    intro i acc hacc hlen hb h9
    simp only [List.length_cons] at hlen h9
    have hi : ¬ (i = binary.MaxVarintLen64) := by simp [binary.MaxVarintLen64]; omega
    obtain ⟨hb1, hb2⟩ := hb b (List.mem_cons_self _ _)
    have hb80 : ¬ (b < 0x80) := by omega
    have hr : b % 128 < 128 := Nat.mod_lt _ (by decide)
    simp only [List.cons_append, binary.uvarintLoop, hi, hb80, if_false, List.append_eq]
    rw [byte_and_127 b hb2, Nat.shiftLeft_eq,
      Nat.mod_eq_of_lt (group_shift_lt (b % 128) i hr (by omega)),
      lor_mul_pow acc (b % 128) (7 * i) hacc]
    have hs : 7 * i + 7 = 7 * (i + 1) := by ring
    have hp : 2 ^ (7 * (i + 1)) = 2 ^ (7 * i) * 128 := by
      rw [← hs, pow_add]
      norm_num
    have hacc2 : acc + b % 128 * 2 ^ (7 * i) < 2 ^ (7 * (i + 1)) := by
      rw [hp]
      have : b % 128 * 2 ^ (7 * i) ≤ 127 * 2 ^ (7 * i) := Nat.mul_le_mul (by omega) le_rfl
      omega
    rw [hs, ih (i + 1) _ hacc2 (by omega) (fun c hc => hb c (List.mem_cons_of_mem _ hc))
      (fun h => h9 (by omega)), hp]
    simp only [reassemble, List.length_cons]
    congr 1
    · ring
    · congr 1
      omega

theorem readUvarint_groups (pre bs rest : List Nat) (t : Nat) (f1 f2 f3 : Bool) (sp : List Nat)
    (hbs : ∀ b ∈ bs, 128 ≤ b ∧ b < 256) (ht : t < 128) (hlen : bs.length < 10)
    (hfit : reassemble (bs ++ [t]) < 2 ^ 64) :
    Decoder.readUvarint ⟨pre ++ (bs ++ t :: rest), pre.length, f1, f2, f3, sp⟩ =
      some (reassemble (bs ++ [t]), none,
        ⟨pre ++ (bs ++ t :: rest), pre.length + (bs.length + 1), f1, f2, f3, sp⟩) := by
  have h9 : 0 + bs.length = 9 → t ≤ 1 := by
    intro h
    have hge := reassemble_last_ge bs t ht
    have e9 : bs.length = 9 := by omega
    rw [e9] at hge
    norm_num at hge hfit
    omega
  have hl := uvarintLoop_groups rest t ht bs 0 0 (by simp) (by omega) hbs h9
  simp only [Nat.zero_add, Nat.mul_zero, pow_zero, Nat.mul_one] at hl
  have hpos : ¬ (((bs.length + 1 : Nat) : Int) ≤ 0) := by omega
  unfold Decoder.readUvarint
  rw [sliceFrom_append]
  dsimp only
  unfold binary.Uvarint
  rw [hl]
  simp only [hpos, if_false, Int.toNat_ofNat]

/-! ## Records -/

theorem EncodeFields_eq {μ : Type} (fields : List (StructField (Value μ))) :
    ∀ e : Encoder, Encoder.EncodeFields fields e =
      Encoder.EncodeElems ((fields.filter StructField.encodes).map StructField.value) e := by
  induction fields with
  | nil => intro e; simp [Encoder.EncodeFields, Encoder.EncodeElems]
  | cons f fs ih =>
    intro e
    rw [Encoder.EncodeFields]
    by_cases h1 : f.tag = "-"
    · have hf : f.encodes = false := by simp [StructField.encodes, h1]
      simp only [h1, if_true, List.filter_cons, hf, ih]
      rfl
    · by_cases h2 : f.Name = "_"
      · have hf : f.encodes = false := by simp [StructField.encodes, h2]
        simp only [h1, h2, if_false, ne_eq, not_true_eq_false, List.filter_cons, hf, ih]
        rfl
      · by_cases h3 : f.exported = true
        · by_cases h4 : f.value.isNil = true
          · have hf : f.encodes = false := by simp [StructField.encodes, h4]
            simp only [h1, h2, h3, h4, if_true, if_false, ne_eq, not_false_eq_true,
              List.filter_cons, hf, ih]
            rfl
          · have hf : f.encodes = true := by simp [StructField.encodes, h1, h2, h3, h4]
            simp only [h1, h2, h3, h4, if_true, if_false, ne_eq, not_false_eq_true,
              List.filter_cons, hf, List.map_cons, Encoder.EncodeElems]
            cases Encoder.Encode f.value e with
            | none => rfl
            | some r =>
              obtain ⟨e1, err⟩ := r
              cases err with
              | none => exact ih e1
              | some _ => rfl
        · have hf : f.encodes = false := by simp [StructField.encodes, h3]
          simp only [h1, h2, h3, if_false, ne_eq, not_false_eq_true, if_true,
            List.filter_cons, hf, ih]
          rfl

theorem putBack_self {α : Type} (fs : List (StructField α)) :
    StructField.putBack fs ((fs.filter StructField.decodes).map StructField.value) = fs := by
  induction fs with
  | nil => rfl
  | cons f fs ih =>
    by_cases hf : f.decodes = true
    · simp only [List.filter_cons, hf, if_true, List.map_cons, StructField.putBack, ih]
    · simp only [Bool.not_eq_true] at hf
      simp only [List.filter_cons, hf]
      cases hv : (fs.filter StructField.decodes).map StructField.value with
      | nil =>
        rw [hv] at ih
        simp only [Bool.false_eq_true, if_false, hv, StructField.putBack, ih]
      | cons v vs =>
        rw [hv] at ih
        simp only [Bool.false_eq_true, if_false, hv, StructField.putBack, hf, ih]

theorem putBack_nil {α : Type} (fs : List (StructField α)) : StructField.putBack fs [] = fs := by
  induction fs with
  | nil => rfl
  | cons f fs ih => simp only [StructField.putBack, ih]

theorem putBack_skip {α : Type} (f : StructField α) (fs : List (StructField α)) (vs : List α)
    (hf : f.decodes = false) : StructField.putBack (f :: fs) vs = f :: StructField.putBack fs vs := by
  cases vs with
  | nil => rfl
  | cons v vs => simp only [StructField.putBack, hf, Bool.false_eq_true, if_false]

theorem decodeStruct_eq {τ μ : Type} (X : Externals τ μ) (fields : List (StructField (Value μ))) :
    ∀ d : Decoder, Decoder.decodeStruct X fields d =
      (Decoder.decodeArrayLoop X ((fields.filter StructField.decodes).map StructField.value).length
          ((fields.filter StructField.decodes).map StructField.value) d).map
        (fun r => (StructField.putBack fields r.1, r.2.1, r.2.2)) := by
  induction fields with
  | nil => intro d; simp [Decoder.decodeStruct, Decoder.decodeArrayLoop, StructField.putBack]
  | cons f fs ih =>
    intro d
    rw [Decoder.decodeStruct]
    by_cases h1 : f.tag = "-"
    · have hf : f.decodes = false := by simp [StructField.decodes, h1]
      simp only [h1, if_true, List.filter_cons, hf, Bool.false_eq_true, if_false, ih d]
      cases Decoder.decodeArrayLoop X _ ((fs.filter StructField.decodes).map StructField.value) d with
      | none => rfl
      | some r => simp only [Option.map_some', putBack_skip f fs r.1 hf]
    · by_cases h2 : f.exported = true ∧ f.Name ≠ "_"
      · have hf : f.decodes = true := by simp [StructField.decodes, h1, h2.1, h2.2]
        rw [if_neg h1, if_pos h2]
        simp only [List.filter_cons, hf, if_true, List.map_cons, List.length_cons,
          Decoder.decodeArrayLoop]
        cases Decoder.Decode X f.value d with
        | none => rfl
        | some r =>
          obtain ⟨v, err, d1⟩ := r
          cases err with
          | some _ =>
            simp only [Option.map_some', StructField.putBack, hf, if_true, putBack_self]
          | none =>
            simp only [ih d1]
            cases Decoder.decodeArrayLoop X _
                ((fs.filter StructField.decodes).map StructField.value) d1 with
            | none => rfl
            | some r2 => simp only [Option.map_some', StructField.putBack, hf, if_true]
      · have hf : f.decodes = false := by
          simp only [StructField.decodes, Bool.and_eq_false_imp, Bool.and_eq_true,
            decide_eq_true_eq, decide_eq_false_iff_not]
          intro ha
          exact fun hn => h2 ⟨ha.2, hn⟩
        rw [if_neg h1, if_neg h2]
        simp only [List.filter_cons, hf, Bool.false_eq_true, if_false, ih d]
        cases Decoder.decodeArrayLoop X _ ((fs.filter StructField.decodes).map StructField.value) d with
        | none => rfl
        | some r => simp only [Option.map_some', putBack_skip f fs r.1 hf]

theorem putBack_frame {α : Type} (fs : List (StructField α)) :
    ∀ vs : List α, List.Forall₂
      (fun f g => g.Name = f.Name ∧ g.tag = f.tag ∧ g.exported = f.exported ∧
        (f.decodes = false → g = f))
      fs (StructField.putBack fs vs) := by
  induction fs with
  | nil => intro vs; cases vs <;> exact List.Forall₂.nil
  | cons f fs ih =>
    intro vs
    cases vs with
    | nil =>
      simp only [StructField.putBack]
      exact List.Forall₂.cons ⟨rfl, rfl, rfl, fun _ => rfl⟩ (ih [])
    | cons v vs =>
      by_cases hf : f.decodes = true
      · simp only [StructField.putBack, hf, if_true]
        refine List.Forall₂.cons ⟨rfl, rfl, rfl, fun h => ?_⟩ (ih vs)
        rw [hf] at h
        cases h
      · simp only [StructField.putBack, hf, if_false]
        exact List.Forall₂.cons ⟨rfl, rfl, rfl, fun _ => rfl⟩ (ih (v :: vs))

/-! ## Sequences and arrays -/

theorem append_append (e : Encoder) (a b : List Nat) :
    (e.append a).append b = e.append (a ++ b) := by
  simp only [Encoder.append, List.append_assoc]

theorem append_nil (e : Encoder) : e.append [] = e := by
  simp only [Encoder.append, List.append_nil]

theorem EncodeElems_map {μ α : Type} (mk : α → Value μ) (enc : α → List Nat) (ok : α → Prop)
    (hE : ∀ x, ok x → ∀ e : Encoder, Encoder.Encode (mk x) e = some (e.append (enc x), none)) :
    ∀ s : List α, (∀ x ∈ s, ok x) → ∀ e : Encoder,
      Encoder.EncodeElems (s.map mk) e = some (e.append (s.map enc).flatten, none) := by
  intro s
  induction s with
  | nil =>
    intro _ e
    simp only [List.map_nil, Encoder.EncodeElems, List.flatten_nil, append_nil]
  | cons x xs ih =>
    intro hs e
    simp only [List.map_cons, Encoder.EncodeElems, hE x (hs x (List.mem_cons_self _ _)) e,
      ih (fun y hy => hs y (List.mem_cons_of_mem _ hy)), append_append, List.flatten_cons]

theorem decodeSliceLoop_map {μ α : Type}
    (dec : Decoder → Option (Value μ × Option Error × Decoder)) (elem : Value μ)
    (mk : α → Value μ) (enc : α → List Nat) (ok : α → Prop) (B : Nat → Prop)
    (hD : ∀ x, ok x → ∀ (data pre rest : List Nat) (pos : Nat) (f1 f2 f3 : Bool) (sp : List Nat),
      data = pre ++ (enc x ++ rest) → pos = pre.length → B data.length →
      dec ⟨data, pos, f1, f2, f3, sp⟩ = some (mk x, none, ⟨data, pos + (enc x).length,
        f1, f2, f3, sp⟩)) :
    ∀ s : List α, (∀ x ∈ s, ok x) →
      ∀ (data pre rest : List Nat) (pos : Nat) (f1 f2 f3 : Bool) (sp : List Nat),
        data = pre ++ ((s.map enc).flatten ++ rest) → pos = pre.length → B data.length →
        Decoder.decodeSliceLoop dec elem s.length ⟨data, pos, f1, f2, f3, sp⟩ =
          some (s.map mk, none, ⟨data, pos + (s.map enc).flatten.length, f1, f2, f3, sp⟩) := by
  intro s
  induction s with
  | nil =>
    intro _ data pre rest pos f1 f2 f3 sp _ _ _
    simp only [List.length_nil, Decoder.decodeSliceLoop, List.map_nil, List.flatten_nil,
      Nat.add_zero]
  | cons x xs ih =>
    intro hs data pre rest pos f1 f2 f3 sp hd hp hb
    have h1 := hD x (hs x (List.mem_cons_self _ _)) data pre ((xs.map enc).flatten ++ rest) pos
      f1 f2 f3 sp (by simp only [hd, List.map_cons, List.flatten_cons, List.append_assoc]) hp hb
    have h2 := ih (fun y hy => hs y (List.mem_cons_of_mem _ hy)) data (pre ++ enc x) rest
      (pos + (enc x).length) f1 f2 f3 sp
      (by simp only [hd, List.map_cons, List.flatten_cons, List.append_assoc])
      (by simp only [hp, List.length_append]) hb
    simp only [List.length_cons, Decoder.decodeSliceLoop, h1, h2, List.map_cons,
      List.flatten_cons, List.length_append, Nat.add_assoc]

theorem Encode_slice_eq {μ : Type} (elem : Value μ) (elems : List (Value μ)) (e : Encoder)
    (h : elems.length < 2 ^ 56) :
    Encoder.Encode (Value.slice elem elems) e =
      Encoder.EncodeElems elems (e.append (base128 elems.length)) := by
  have hw := writeUVarInt_eq e (elems.length : Int) (Int.ofNat_nonneg _) (by exact_mod_cast h)
  simp only [Encoder.Encode, hw, Int.toNat_ofNat]

theorem Decode_slice_map {τ μ α : Type} (X : Externals τ μ) (elem : Value μ)
    (mk : α → Value μ) (enc : α → List Nat) (ok : α → Prop) (B : Nat → Prop)
    (hu : elem.isUint8 = false)
    (hD : ∀ x, ok x → ∀ (data pre rest : List Nat) (pos : Nat) (f1 f2 f3 : Bool) (sp : List Nat),
      data = pre ++ (enc x ++ rest) → pos = pre.length → B data.length →
      Decoder.Decode X elem ⟨data, pos, f1, f2, f3, sp⟩ =
        some (mk x, none, ⟨data, pos + (enc x).length, f1, f2, f3, sp⟩))
    (s : List α) (hs : ∀ x ∈ s, ok x) (hl : s.length < 2 ^ 56) (old : List (Value μ))
    (pre rest : List Nat) (f1 f2 f3 : Bool) (sp : List Nat)
    (hb : B (pre ++ (base128 s.length ++ (s.map enc).flatten) ++ rest).length) :
    Decoder.Decode X (Value.slice elem old)
        ⟨pre ++ (base128 s.length ++ (s.map enc).flatten) ++ rest, pre.length, f1, f2, f3, sp⟩ =
      some (Value.slice elem (s.map mk), none,
        ⟨pre ++ (base128 s.length ++ (s.map enc).flatten) ++ rest,
          pre.length + (base128 s.length ++ (s.map enc).flatten).length, f1, f2, f3, sp⟩) := by
  have h8 := base128_length_le_8 s.length hl
  have hu1 := readUvarint_at (pre ++ (base128 s.length ++ (s.map enc).flatten) ++ rest) pre
    ((s.map enc).flatten ++ rest) s.length pre.length f1 f2 f3 sp (by simp) rfl (by omega)
  have hi := toInt64_small s.length (by omega)
  have hloop := decodeSliceLoop_map (Decoder.Decode X elem) elem mk enc ok B hD s hs
    (pre ++ (base128 s.length ++ (s.map enc).flatten) ++ rest) (pre ++ base128 s.length) rest
    (pre.length + (base128 s.length).length) f1 f2 f3 sp (by simp) (by simp) hb
  have hneg : ¬ ((s.length : Int) < 0) := by omega
  rw [Decoder.Decode]
  simp only [hu, Bool.false_eq_true, if_false, hu1, hi, hneg, Int.toNat_ofNat, hloop,
    List.length_append, Nat.add_assoc]

/-! ## Leaf elements of a sequence -/

theorem Encode_uint16 {μ : Type} (x : Nat) (e : Encoder) :
    Encoder.Encode (Value.uint16 x : Value μ) e = some (e.append (le16 x), none) := by
  simp only [Encoder.Encode, writeUint16_eq, Encoder.returned]

theorem Encode_uint32 {μ : Type} (x : Nat) (e : Encoder) :
    Encoder.Encode (Value.uint32 x : Value μ) e = some (e.append (le32 x), none) := by
  simp only [Encoder.Encode, writeUint32_eq, Encoder.returned]

theorem Encode_uint64 {μ : Type} (x : Nat) (e : Encoder) :
    Encoder.Encode (Value.uint64 x : Value μ) e = some (e.append (le64 x), none) := by
  simp only [Encoder.Encode, writeUint64_eq, Encoder.returned]

theorem Encode_string {μ : Type} (b : List Nat) (e : Encoder) (h : b.length < 2 ^ 56) :
    Encoder.Encode (Value.string StringType.string b : Value μ) e =
      some (e.append (base128 b.length ++ b), none) := by
  simp only [Encoder.Encode, if_true, Encoder.writeString, writeByteArray_eq e b h,
    Encoder.returned]

theorem Encode_byte {μ : Type} (b : Nat) (e : Encoder) :
    Encoder.Encode (Value.byte ByteType.byte b : Value μ) e = some (e.append [b], none) := by
  simp only [Encoder.Encode, Encoder.writeByte]

theorem Decode_uint16_at {τ μ : Type} (X : Externals τ μ) (z x : Nat) (data pre rest : List Nat)
    (pos : Nat) (f1 f2 f3 : Bool)
      (sp : List Nat) (hd : data = pre ++ (le16 x ++ rest)) (hp : pos = pre.length)
    (hx : x < 2 ^ 16) :
    Decoder.Decode X (Value.uint16 z) ⟨data, pos, f1, f2, f3, sp⟩ =
      some (Value.uint16 x, none, ⟨data, pos + (le16 x).length, f1, f2, f3, sp⟩) := by
  subst hd hp
  have h := readUint16_le16 x pre rest f1 f2 f3 sp hx
  rw [List.append_assoc] at h
  simp only [Decoder.Decode, h]
  rfl

theorem Decode_uint32_at {τ μ : Type} (X : Externals τ μ) (z x : Nat) (data pre rest : List Nat)
    (pos : Nat) (f1 f2 f3 : Bool)
      (sp : List Nat) (hd : data = pre ++ (le32 x ++ rest)) (hp : pos = pre.length)
    (hx : x < 2 ^ 32) :
    Decoder.Decode X (Value.uint32 z) ⟨data, pos, f1, f2, f3, sp⟩ =
      some (Value.uint32 x, none, ⟨data, pos + (le32 x).length, f1, f2, f3, sp⟩) := by
  subst hd hp
  have h := readUint32_le32 x pre rest f1 f2 f3 sp hx
  rw [List.append_assoc] at h
  simp only [Decoder.Decode, h]
  rfl

theorem Decode_uint64_at {τ μ : Type} (X : Externals τ μ) (z x : Nat) (data pre rest : List Nat)
    (pos : Nat) (f1 f2 f3 : Bool)
      (sp : List Nat) (hd : data = pre ++ (le64 x ++ rest)) (hp : pos = pre.length)
    (hx : x < 2 ^ 64) :
    Decoder.Decode X (Value.uint64 z) ⟨data, pos, f1, f2, f3, sp⟩ =
      some (Value.uint64 x, none, ⟨data, pos + (le64 x).length, f1, f2, f3, sp⟩) := by
  subst hd hp
  have h := readUint64_le64 x pre rest f1 f2 f3 sp hx
  rw [List.append_assoc] at h
  simp only [Decoder.Decode, h]
  rfl

theorem Decode_string_at {τ μ : Type} (X : Externals τ μ) (z b : List Nat)
    (data pre rest : List Nat) (pos : Nat) (f1 f2 f3 : Bool) (sp : List Nat)
    (hd : data = pre ++ ((base128 b.length ++ b) ++ rest)) (hp : pos = pre.length)
    (hb : b.length < 2 ^ 56) (hbuf : data.length < 2 ^ 63) :
    Decoder.Decode X (Value.string StringType.string z) ⟨data, pos, f1, f2, f3, sp⟩ =
      some (Value.string StringType.string b, none,
        ⟨data, pos + (base128 b.length ++ b).length, f1, f2, f3, sp⟩) := by
  subst hd hp
  have h := readByteArray_eq b pre rest f1 f2 f3 sp hb (by rw [List.append_assoc]; exact hbuf)
  rw [List.append_assoc] at h
  simp only [Decoder.Decode, Decoder.readString, h, List.length_append, Nat.add_assoc]

theorem flatten_singletons (b : List Nat) : (b.map (fun x => [x])).flatten = b := by
  induction b with
  | nil => rfl
  | cons x xs ih => simp only [List.map_cons, List.flatten_cons, ih, List.singleton_append]

/-! ## Errors that are lost or never raised -/

theorem readByteArray_truncated (d d1 : Decoder) (l : Nat)
    (hu : d.readUvarint = some (l, none, d1)) (hl : d1.pos + l < 2 ^ 63)
    (ht : d1.data.length < d1.pos + l) :
    d.readByteArray =
      some ([], some (Error.byteArrayMissing l ((d1.pos : Int) + l - d1.data.length)), d1) := by
  have hi : toInt64 l = l := toInt64_small l (by omega)
  have hw : wrapInt64 ((d1.pos : Int) + (l : Int)) = (d1.pos : Int) + l :=
    wrapInt64_small _ (by omega) (by omega)
  have hw2 : wrapInt64 ((d1.pos : Int) + l - d1.data.length) = (d1.pos : Int) + l - d1.data.length :=
    wrapInt64_small _ (by omega) (by omega)
  have hlt : (d1.data.length : Int) < (d1.pos : Int) + l := by omega
  simp only [Decoder.readByteArray, hu, hi, hw, hw2, hlt, if_true]

theorem DecodeP2PMessageEnvelope_error_lost {τ μ : Type} (Attributes : Nat → Option τ)
    (DecodeAs : τ → Decoder → Option (μ × Option Error)) (d d1 : Decoder)
    (env : P2PMessageEnvelope μ) (attr : τ) (m : μ) (err : Error)
    (hr : d.readP2PMessageEnvelope = some (env, d1)) (hon : d1.decodeP2PMessage = true)
    (ha : Attributes env.Type_ = some attr)
    (hd : DecodeAs attr (NewDecoder env.Payload env.PayloadSpare) = some (m, some err)) :
    Decoder.DecodeP2PMessageEnvelope Attributes DecodeAs d =
      some (some { env with P2PMessage := some m }, none, d1) := by
  simp only [Decoder.DecodeP2PMessageEnvelope, hr, hon, if_true, ha, hd]

/-! ## The encode buffer, and elements in order -/

/-- C1: for every integer `v` with `0 ≤ v < 2^56`, `writeUVarInt v` appends to the encode
buffer exactly the base-128 little-endian encoding of `v`: a non-empty run of bytes, each
carrying 7 data bits, all but the last with the continuation bit set, the last with it
clear, whose 7-bit groups reassemble to `v`; 300 gives `[0xAC, 0x02]`, 127 gives `[0x7F]`
and 128 gives `[0x80, 0x01]`. -/
theorem writeUVarInt_base128 (e : Encoder) (v : Int) (h0 : 0 ≤ v) (h56 : v < 2 ^ 56) :
    ∃ bs : List Nat,
      e.writeUVarInt v = some ⟨e.data ++ bs⟩ ∧ bs = base128 v.toNat ∧ bs ≠ [] ∧
      (∀ b ∈ bs, b < 256) ∧ (∀ b ∈ bs.dropLast, 128 ≤ b) ∧
      (∀ b, bs.getLast? = some b → b < 128) ∧ ((reassemble bs : Nat) : Int) = v ∧
      e.writeUVarInt 300 = some ⟨e.data ++ [0xAC, 0x02]⟩ ∧
      e.writeUVarInt 127 = some ⟨e.data ++ [0x7F]⟩ ∧
      e.writeUVarInt 128 = some ⟨e.data ++ [0x80, 0x01]⟩ := by
  have happ : ∀ (x : Encoder) (bs : List Nat), (⟨x.data ++ bs⟩ : Encoder) = x.append bs :=
    fun _ _ => rfl
  simp only [happ]
  obtain ⟨p1, p2, p3, p4⟩ := base128_props v.toNat
  refine ⟨base128 v.toNat, writeUVarInt_eq e v h0 h56, rfl, base128_ne_nil _, p1, p2,
    fun b hb => (p3 b hb).1, ?_, rfl, rfl, rfl⟩
  rw [p4]
  exact Int.toNat_of_nonneg h0

/-- Witness of C1 at `v = 300` on an empty encode buffer. -/
theorem writeUVarInt_base128_witness :
    ∃ bs : List Nat,
      (⟨[]⟩ : Encoder).writeUVarInt 300 = some ⟨(⟨[]⟩ : Encoder).data ++ bs⟩ ∧
      bs = base128 (300 : Int).toNat ∧ bs ≠ [] ∧
      (∀ b ∈ bs, b < 256) ∧ (∀ b ∈ bs.dropLast, 128 ≤ b) ∧
      (∀ b, bs.getLast? = some b → b < 128) ∧ ((reassemble bs : Nat) : Int) = 300 ∧
      (⟨[]⟩ : Encoder).writeUVarInt 300 = some ⟨(⟨[]⟩ : Encoder).data ++ [0xAC, 0x02]⟩ ∧
      (⟨[]⟩ : Encoder).writeUVarInt 127 = some ⟨(⟨[]⟩ : Encoder).data ++ [0x7F]⟩ ∧
      (⟨[]⟩ : Encoder).writeUVarInt 128 = some ⟨(⟨[]⟩ : Encoder).data ++ [0x80, 0x01]⟩ :=
  writeUVarInt_base128 ⟨[]⟩ 300 (by decide) (by norm_num)

/-- C3: fixed-width integers are little-endian mirror pairs. `writeUint16`, `writeUint32`,
`writeUint64` and `writeInt16` append exactly 2, 4, 8 and 2 bytes, least-significant byte
first (`writeUint32(100)` appends `[0x64, 0, 0, 0]`), and the matching reader at the start
of those bytes returns the value and advances the cursor by 2, 4, 8 and 2. -/
theorem fixed_width_round_trip (e : Encoder) (x16 x32 x64 : Nat) (i16 : Int)
    (h16 : x16 < 2 ^ 16) (h32 : x32 < 2 ^ 32) (h64 : x64 < 2 ^ 64)
    (hlo : -2 ^ 15 ≤ i16) (hhi : i16 < 2 ^ 15) :
    (e.writeUint16 x16 = some ⟨e.data ++ le16 x16⟩ ∧ (le16 x16).length = 2 ∧
      ∀ (pre rest : List Nat) (f1 f2 f3 : Bool) (sp : List Nat),
        Decoder.readUint16 ⟨pre ++ le16 x16 ++ rest, pre.length, f1, f2, f3, sp⟩ =
          some (x16, ⟨pre ++ le16 x16 ++ rest, pre.length + 2, f1, f2, f3, sp⟩)) ∧
    (e.writeUint32 x32 = some ⟨e.data ++ le32 x32⟩ ∧ (le32 x32).length = 4 ∧
      ∀ (pre rest : List Nat) (f1 f2 f3 : Bool) (sp : List Nat),
        Decoder.readUint32 ⟨pre ++ le32 x32 ++ rest, pre.length, f1, f2, f3, sp⟩ =
          some (x32, ⟨pre ++ le32 x32 ++ rest, pre.length + 4, f1, f2, f3, sp⟩)) ∧
    (e.writeUint64 x64 = some ⟨e.data ++ le64 x64⟩ ∧ (le64 x64).length = 8 ∧
      ∀ (pre rest : List Nat) (f1 f2 f3 : Bool) (sp : List Nat),
        Decoder.readUint64 ⟨pre ++ le64 x64 ++ rest, pre.length, f1, f2, f3, sp⟩ =
          some (x64, ⟨pre ++ le64 x64 ++ rest, pre.length + 8, f1, f2, f3, sp⟩)) ∧
    (e.writeInt16 i16 = some ⟨e.data ++ le16 (toUint16 i16)⟩ ∧ (le16 (toUint16 i16)).length = 2 ∧
      ∀ (pre rest : List Nat) (f1 f2 f3 : Bool) (sp : List Nat),
        Decoder.readInt16 ⟨pre ++ le16 (toUint16 i16) ++ rest, pre.length, f1, f2, f3, sp⟩ =
          some (i16, ⟨pre ++ le16 (toUint16 i16) ++ rest, pre.length + 2, f1, f2, f3, sp⟩)) ∧
    e.writeUint32 100 = some ⟨e.data ++ [0x64, 0x00, 0x00, 0x00]⟩ := by
  have happ : ∀ (x : Encoder) (bs : List Nat), (⟨x.data ++ bs⟩ : Encoder) = x.append bs :=
    fun _ _ => rfl
  simp only [happ]
  refine ⟨⟨writeUint16_eq e x16, rfl,
      fun pre rest f1 f2 f3 sp => readUint16_le16 x16 pre rest f1 f2 f3 sp h16⟩,
    ⟨writeUint32_eq e x32, rfl, fun pre rest f1 f2 f3 sp => readUint32_le32 x32 pre rest f1 f2 f3 sp h32⟩,
    ⟨writeUint64_eq e x64, rfl, fun pre rest f1 f2 f3 sp => readUint64_le64 x64 pre rest f1 f2 f3 sp h64⟩,
    ⟨?_, rfl, ?_⟩, rfl⟩
  · simp only [Encoder.writeInt16, writeUint16_eq]
  · intro pre rest f1 f2 f3 sp
    simp only [Decoder.readInt16, readUint16_le16 _ pre rest f1 f2 f3 sp (toUint16_lt i16),
      toInt16_toUint16 i16 hlo hhi]

/-- Witness of C3 at `0x1234`, `100`, `2^40 + 7` and `-2`. -/
theorem fixed_width_round_trip_witness :
    (((⟨[]⟩ : Encoder).writeUint16 0x1234 = some ⟨(⟨[]⟩ : Encoder).data ++ le16 0x1234⟩ ∧
      (le16 0x1234).length = 2 ∧
      ∀ (pre rest : List Nat) (f1 f2 f3 : Bool) (sp : List Nat),
        Decoder.readUint16 ⟨pre ++ le16 0x1234 ++ rest, pre.length, f1, f2, f3, sp⟩ =
          some (0x1234, ⟨pre ++ le16 0x1234 ++ rest, pre.length + 2, f1, f2, f3, sp⟩)) ∧
    ((⟨[]⟩ : Encoder).writeUint32 100 = some ⟨(⟨[]⟩ : Encoder).data ++ le32 100⟩ ∧
      (le32 100).length = 4 ∧
      ∀ (pre rest : List Nat) (f1 f2 f3 : Bool) (sp : List Nat),
        Decoder.readUint32 ⟨pre ++ le32 100 ++ rest, pre.length, f1, f2, f3, sp⟩ =
          some (100, ⟨pre ++ le32 100 ++ rest, pre.length + 4, f1, f2, f3, sp⟩)) ∧
    ((⟨[]⟩ : Encoder).writeUint64 (2 ^ 40 + 7) = some ⟨(⟨[]⟩ : Encoder).data ++ le64 (2 ^ 40 + 7)⟩ ∧
      (le64 (2 ^ 40 + 7)).length = 8 ∧
      ∀ (pre rest : List Nat) (f1 f2 f3 : Bool) (sp : List Nat),
        Decoder.readUint64 ⟨pre ++ le64 (2 ^ 40 + 7) ++ rest, pre.length, f1, f2, f3, sp⟩ =
          some (2 ^ 40 + 7, ⟨pre ++ le64 (2 ^ 40 + 7) ++ rest, pre.length + 8, f1, f2, f3, sp⟩)) ∧
    ((⟨[]⟩ : Encoder).writeInt16 (-2) = some ⟨(⟨[]⟩ : Encoder).data ++ le16 (toUint16 (-2))⟩ ∧
      (le16 (toUint16 (-2))).length = 2 ∧
      ∀ (pre rest : List Nat) (f1 f2 f3 : Bool) (sp : List Nat),
        Decoder.readInt16 ⟨pre ++ le16 (toUint16 (-2)) ++ rest, pre.length, f1, f2, f3, sp⟩ =
          some (-2, ⟨pre ++ le16 (toUint16 (-2)) ++ rest, pre.length + 2, f1, f2, f3, sp⟩)) ∧
    (⟨[]⟩ : Encoder).writeUint32 100 = some ⟨(⟨[]⟩ : Encoder).data ++ [0x64, 0x00, 0x00, 0x00]⟩) ∧
    le16 (toUint16 (-2)) = [0xFE, 0xFF] :=
  ⟨fixed_width_round_trip ⟨[]⟩ 0x1234 100 (2 ^ 40 + 7) (-2) (by norm_num) (by norm_num)
    (by norm_num) (by norm_num) (by norm_num), by decide⟩

/-- C4: length-prefixed bytes round trip. For every byte sequence `b` (and every string,
taken as its bytes) with `len(b) < 2^56`, `writeByteArray` and `writeString` append the varint
of `len(b)` followed by `b` unchanged, and `readByteArray` and `readString` at the start of
those bytes, followed by any suffix, return exactly `b` with no error and advance the cursor
by the length of the varint plus `len(b)`. The buffer read is a Go slice, so its length is
an `int`, below `2^63`. -/
theorem byteArray_round_trip (e : Encoder) (b pre rest : List Nat) (f1 f2 f3 : Bool) (sp : List Nat)
    (h : b.length < 2 ^ 56) (hbuf : pre.length + 8 + b.length + rest.length < 2 ^ 63) :
    ∃ vl : List Nat, e.writeUVarInt (b.length : Int) = some ⟨e.data ++ vl⟩ ∧
      e.writeByteArray b = some ⟨e.data ++ (vl ++ b)⟩ ∧
      e.writeString b = some ⟨e.data ++ (vl ++ b)⟩ ∧
      Decoder.readByteArray ⟨pre ++ (vl ++ b) ++ rest, pre.length, f1, f2, f3, sp⟩ =
        some (b, none, ⟨pre ++ (vl ++ b) ++ rest, pre.length + vl.length + b.length,
          f1, f2, f3, sp⟩) ∧
      Decoder.readString ⟨pre ++ (vl ++ b) ++ rest, pre.length, f1, f2, f3, sp⟩ =
        some (b, none, ⟨pre ++ (vl ++ b) ++ rest, pre.length + vl.length + b.length,
          f1, f2, f3, sp⟩) := by
  have happ : ∀ (x : Encoder) (bs : List Nat), (⟨x.data ++ bs⟩ : Encoder) = x.append bs :=
    fun _ _ => rfl
  simp only [happ]
  have h8 := base128_length_le_8 b.length h
  have hr := readByteArray_eq b pre rest f1 f2 f3 sp h (by simp only [List.length_append]; omega)
  refine ⟨base128 b.length, ?_, writeByteArray_eq e b h, ?_, hr, ?_⟩
  · have hw := writeUVarInt_eq e (b.length : Int) (Int.ofNat_nonneg _) (by exact_mod_cast h)
    simpa using hw
  · simp only [Encoder.writeString, writeByteArray_eq e b h]
  · simp only [Decoder.readString, hr]

/-- Witness of C4 at the three bytes `[7, 8, 9]`, read at offset 1 of a 6-byte buffer. -/
theorem byteArray_round_trip_witness :
    ∃ vl : List Nat,
      (⟨[]⟩ : Encoder).writeUVarInt (([7, 8, 9] : List Nat).length : Int) =
        some ⟨(⟨[]⟩ : Encoder).data ++ vl⟩ ∧
      (⟨[]⟩ : Encoder).writeByteArray [7, 8, 9] = some ⟨(⟨[]⟩ : Encoder).data ++ (vl ++ [7, 8, 9])⟩ ∧
      (⟨[]⟩ : Encoder).writeString [7, 8, 9] = some ⟨(⟨[]⟩ : Encoder).data ++ (vl ++ [7, 8, 9])⟩ ∧
      Decoder.readByteArray ⟨[255] ++ (vl ++ [7, 8, 9]) ++ [42], ([255] : List Nat).length,
          true, true, true, []⟩ =
        some ([7, 8, 9], none, ⟨[255] ++ (vl ++ [7, 8, 9]) ++ [42],
          ([255] : List Nat).length + vl.length + ([7, 8, 9] : List Nat).length,
          true, true, true, []⟩) ∧
      Decoder.readString ⟨[255] ++ (vl ++ [7, 8, 9]) ++ [42], ([255] : List Nat).length,
          true, true, true, []⟩ =
        some ([7, 8, 9], none, ⟨[255] ++ (vl ++ [7, 8, 9]) ++ [42],
          ([255] : List Nat).length + vl.length + ([7, 8, 9] : List Nat).length,
          true, true, true, []⟩) :=
  byteArray_round_trip ⟨[]⟩ [7, 8, 9] [255] [42] true true true [] (by norm_num) (by norm_num)

/-- C6: fixed blob default. Encoding a zero-length digest appends exactly 32 zero bytes
(34 for a zero-length public key, 66 for a zero-length signature) and nothing else;
decoding a digest from those 32 bytes yields those bytes, a value of length exactly 32,
and advances the cursor by 32. -/
theorem blob_default (e : Encoder) :
    e.writeSHA256Bytes [] = ⟨e.data ++ List.replicate 32 0⟩ ∧
    e.writePublicKey [] = ⟨e.data ++ List.replicate 34 0⟩ ∧
    e.writeSignature [] = ⟨e.data ++ List.replicate 66 0⟩ ∧
    (List.replicate 32 0 : List Nat).length = 32 ∧
    ∀ (pre rest : List Nat) (f1 f2 f3 : Bool) (sp : List Nat),
      Decoder.readSHA256Bytes ⟨pre ++ List.replicate 32 0 ++ rest, pre.length, f1, f2, f3, sp⟩ =
        some (List.replicate 32 0,
          ⟨pre ++ List.replicate 32 0 ++ rest, pre.length + 32, f1, f2, f3, sp⟩) := by
  have happ : ∀ (x : Encoder) (bs : List Nat), (⟨x.data ++ bs⟩ : Encoder) = x.append bs :=
    fun _ _ => rfl
  simp only [happ]
  refine ⟨?_, ?_, ?_, by simp, ?_⟩
  · simp [Encoder.writeSHA256Bytes, Encoder.append, Encoder.zeros, TypeSize]
  · simp [Encoder.writePublicKey, Encoder.append, Encoder.zeros, TypeSize]
  · simp [Encoder.writeSignature, Encoder.append, Encoder.zeros, TypeSize]
  · intro pre rest f1 f2 f3 sp
    exact readSHA256Bytes_at (List.replicate 32 0) pre rest f1 f2 f3 sp (by simp)

/-- C7: block timestamp. For every whole-second time `bt` whose Unix seconds `s` satisfy
`946684800 ≤ s < 946684800 + 2^32`, `writeBlockTimestamp` appends the 4-byte little-endian
encoding of `s - 946684800`, and `readBlockTimestamp` on those bytes returns the time with
Unix seconds `s`; `s = 946684800` encodes to the bytes of `uint32(0)`, and decoding them
yields Unix seconds `946684800`. -/
theorem blockTimestamp_round_trip (e : Encoder) (bt : BlockTimestamp) (hw : bt.Time.nsec = 0)
    (h0 : 946684800 ≤ bt.Time.Unix) (h1 : bt.Time.Unix < 946684800 + 2 ^ 32) :
    e.writeBlockTimestamp bt = some ⟨e.data ++ le32 (bt.Time.Unix - 946684800).toNat⟩ ∧
    (∀ (pre rest : List Nat) (f1 f2 f3 : Bool) (sp : List Nat),
      Decoder.readBlockTimestamp
          ⟨pre ++ le32 (bt.Time.Unix - 946684800).toNat ++ rest, pre.length, f1, f2, f3, sp⟩ =
        some (bt, ⟨pre ++ le32 (bt.Time.Unix - 946684800).toNat ++ rest, pre.length + 4,
          f1, f2, f3, sp⟩)) ∧
    e.writeBlockTimestamp ⟨time.Unix 946684800 0⟩ = some ⟨e.data ++ [0, 0, 0, 0]⟩ ∧
    [0, 0, 0, 0] = le32 0 ∧
    ∀ (pre rest : List Nat) (f1 f2 f3 : Bool) (sp : List Nat),
      Decoder.readBlockTimestamp ⟨pre ++ [0, 0, 0, 0] ++ rest, pre.length, f1, f2, f3, sp⟩ =
        some (⟨time.Unix 946684800 0⟩, ⟨pre ++ [0, 0, 0, 0] ++ rest, pre.length + 4,
          f1, f2, f3, sp⟩) ∧
      (time.Unix 946684800 0).Unix = 946684800 := by
  have happ : ∀ (x : Encoder) (bs : List Nat), (⟨x.data ++ bs⟩ : Encoder) = x.append bs :=
    fun _ _ => rfl
  simp only [happ]
  obtain ⟨⟨sec, nsec⟩⟩ := bt
  simp only [Time.Unix] at hw h0 h1 ⊢
  subst hw
  have hlt : (sec - 946684800).toNat < 2 ^ 32 := by omega
  refine ⟨?_, ?_, rfl, rfl, ?_⟩
  · simp only [Encoder.writeBlockTimestamp, Time.Unix,
      wrapInt64_small (sec - 946684800) (by omega) (by omega),
      toUint32_small (sec - 946684800) (by omega) (by omega), writeUint32_eq]
  · intro pre rest f1 f2 f3 sp
    have hr := readUint32_le32 (sec - 946684800).toNat pre rest f1 f2 f3 sp hlt
    have hs : (((sec - 946684800).toNat : Nat) : Int) + 946684800 = sec := by omega
    unfold Decoder.readBlockTimestamp
    rw [hr]
    dsimp only
    rw [hs, wrapInt64_small sec (by omega) (by omega)]
    rfl
  · intro pre rest f1 f2 f3 sp
    have hr := readUint32_le32 0 pre rest f1 f2 f3 sp (by norm_num)
    refine ⟨?_, rfl⟩
    have e0 : le32 0 = [0, 0, 0, 0] := rfl
    rw [e0] at hr
    unfold Decoder.readBlockTimestamp
    rw [hr]
    rfl

/-- Witness of C7 at the epoch second `946684800` itself. -/
theorem blockTimestamp_round_trip_witness :
    (⟨[]⟩ : Encoder).writeBlockTimestamp ⟨⟨946684800, 0⟩⟩ =
      some ⟨(⟨[]⟩ : Encoder).data ++ le32 ((⟨946684800, 0⟩ : Time).Unix - 946684800).toNat⟩ ∧
    (∀ (pre rest : List Nat) (f1 f2 f3 : Bool) (sp : List Nat),
      Decoder.readBlockTimestamp
          ⟨pre ++ le32 ((⟨946684800, 0⟩ : Time).Unix - 946684800).toNat ++ rest, pre.length,
            f1, f2, f3, sp⟩ =
        some (⟨⟨946684800, 0⟩⟩,
          ⟨pre ++ le32 ((⟨946684800, 0⟩ : Time).Unix - 946684800).toNat ++ rest, pre.length + 4,
          f1, f2, f3, sp⟩)) ∧
    (⟨[]⟩ : Encoder).writeBlockTimestamp ⟨time.Unix 946684800 0⟩ =
      some ⟨(⟨[]⟩ : Encoder).data ++ [0, 0, 0, 0]⟩ ∧
    [0, 0, 0, 0] = le32 0 ∧
    ∀ (pre rest : List Nat) (f1 f2 f3 : Bool) (sp : List Nat),
      Decoder.readBlockTimestamp ⟨pre ++ [0, 0, 0, 0] ++ rest, pre.length, f1, f2, f3, sp⟩ =
        some (⟨time.Unix 946684800 0⟩, ⟨pre ++ [0, 0, 0, 0] ++ rest, pre.length + 4,
          f1, f2, f3, sp⟩) ∧
      (time.Unix 946684800 0).Unix = 946684800 :=
  blockTimestamp_round_trip ⟨[]⟩ ⟨⟨946684800, 0⟩⟩ rfl (by decide) (by decide)

/-- C9 fails on the code: on the five bytes of an envelope with `length = 1`, tag `5` and an
empty payload, read from offset 0, `readP2PMessageEnvelope` leaves the cursor at 6, past the
end of the 5-byte buffer, where the claim has `0 + 4 + 1 = 5`; on an envelope with
`length = 2` followed by one more byte it leaves the cursor at 7, one past the first byte
after the payload. -/
theorem readP2PMessageEnvelope_cursor_overshoot :
    (@Decoder.readP2PMessageEnvelope Unit (NewDecoder [1, 0, 0, 0, 5] []) =
      some (⟨1, 5, [], none, []⟩, ⟨[1, 0, 0, 0, 5], 6, true, true, true, []⟩)) ∧
    ([1, 0, 0, 0, 5] : List Nat).length < 6 ∧
    (@Decoder.readP2PMessageEnvelope Unit (NewDecoder [2, 0, 0, 0, 5, 9, 77] []) =
      some (⟨2, 5, [9], none, [77]⟩, ⟨[2, 0, 0, 0, 5, 9, 77], 7, true, true, true, []⟩)) := by
  decide

/-- C10 fails on the code: with fewer than `N` bytes left, each fixed-width reader raises
a run-time panic (`none`) instead of handing an error to its caller. -/
theorem fixed_width_readers_panic_when_truncated :
    Decoder.readByte (NewDecoder [] []) = none ∧
    Decoder.readUint16 (NewDecoder [1] []) = none ∧
    Decoder.readInt16 (NewDecoder [1] []) = none ∧
    Decoder.readUint32 (NewDecoder [1, 2, 3] []) = none ∧
    Decoder.readUint64 (NewDecoder [1, 2, 3, 4, 5, 6, 7] []) = none ∧
    Decoder.readSHA256Bytes (NewDecoder (List.replicate 31 0) []) = none ∧
    Decoder.readPublicKey (NewDecoder (List.replicate 33 0) []) = none ∧
    Decoder.readSignature (NewDecoder (List.replicate 65 0) []) = none := by
  decide

/-- C11 fails on the code: the ten bytes `FF FF FF FF FF FF FF FF FF 01` are a well-formed
varint of the 64-bit length `2^64 - 1` with no byte after it, and `readByteArray` on them
raises a slice-bounds panic (`none`) where the claim has an error result: `int(l)` is `-1`,
the test `len(d.data) < d.pos+int(l)` is `10 < 9`, and `d.data[10:9]` is evaluated. -/
theorem readByteArray_huge_length_panics :
    Decoder.readUvarint (NewDecoder [255, 255, 255, 255, 255, 255, 255, 255, 255, 1] []) =
      some (2 ^ 64 - 1, none,
        ⟨[255, 255, 255, 255, 255, 255, 255, 255, 255, 1], 10, true, true, true, []⟩) ∧
    toInt64 (2 ^ 64 - 1) = -1 ∧
    Decoder.readByteArray (NewDecoder [255, 255, 255, 255, 255, 255, 255, 255, 255, 1] []) = none := by
  decide

/-- C12: malformed varint. At a cursor `p` within the buffer, `readUvarint` returns an error
and leaves the cursor at `p` whenever no byte from `p` to the end of the buffer has its high
bit clear (`cont` is any run of such bytes, the empty one included). When the bytes from `p`
on are `bs` with the high bit set, at most nine of them, then a byte `t` with the high bit
clear, and the value of the 7-bit groups fits in 64 bits, it returns that value with no
error. -/
theorem readUvarint_malformed (pre cont bs rest : List Nat) (t : Nat) (f1 f2 f3 : Bool)
    (sp : List Nat)
    (hcont : ∀ b ∈ cont, 128 ≤ b) (hbs : ∀ b ∈ bs, 128 ≤ b ∧ b < 256) (ht : t < 128)
    (hlen : bs.length < 10) (hfit : reassemble (bs ++ [t]) < 2 ^ 64) :
    Decoder.readUvarint ⟨pre ++ cont, pre.length, f1, f2, f3, sp⟩ =
      some (0, some Error.VarIntBufferSizeError, ⟨pre ++ cont, pre.length, f1, f2, f3, sp⟩) ∧
    Decoder.readUvarint ⟨pre, pre.length, f1, f2, f3, sp⟩ =
      some (0, some Error.VarIntBufferSizeError, ⟨pre, pre.length, f1, f2, f3, sp⟩) ∧
    Decoder.readUvarint ⟨pre ++ (bs ++ t :: rest), pre.length, f1, f2, f3, sp⟩ =
      some (reassemble (bs ++ [t]), none,
        ⟨pre ++ (bs ++ t :: rest), pre.length + (bs.length + 1), f1, f2, f3, sp⟩) := by
  refine ⟨readUvarint_no_terminator pre cont f1 f2 f3 sp hcont, ?_,
    readUvarint_groups pre bs rest t f1 f2 f3 sp hbs ht hlen hfit⟩
  have h := readUvarint_no_terminator pre [] f1 f2 f3 sp (fun b hb => by cases hb)
  simpa using h

/-- Witness of C12: two continuation bytes and nothing else after one byte, and the varint
`AC 02` of 300 after one byte. -/
theorem readUvarint_malformed_witness :
    Decoder.readUvarint ⟨[7] ++ [0x80, 0xFF], ([7] : List Nat).length, true, true, true, []⟩ =
      some (0, some Error.VarIntBufferSizeError,
        ⟨[7] ++ [0x80, 0xFF], ([7] : List Nat).length, true, true, true, []⟩) ∧
    Decoder.readUvarint ⟨[7], ([7] : List Nat).length, true, true, true, []⟩ =
      some (0, some Error.VarIntBufferSizeError,
        ⟨[7], ([7] : List Nat).length, true, true, true, []⟩) ∧
    Decoder.readUvarint ⟨[7] ++ ([0xAC] ++ 2 :: [9]), ([7] : List Nat).length,
      true, true, true, []⟩ =
      some (reassemble ([0xAC] ++ [2]), none,
        ⟨[7] ++ ([0xAC] ++ 2 :: [9]),
          ([7] : List Nat).length + (([0xAC] : List Nat).length + 1), true, true, true, []⟩) :=
  readUvarint_malformed [7] [0x80, 0xFF] [0xAC] [9] 2 true true true [] (by decide) (by decide)
    (by decide) (by decide) (by decide)

/-- C13, as the code has it: for every record, `Encode` produces exactly the bytes of
encoding, in declaration order, the fields that are not marked skip (tag `-`), not named
`_`, exported, and not a nil interface value; `Decode` reads, in declaration order, exactly
the fields that are not marked skip, exported and not named `_`, and every other field, a
skip-marked one in particular, is left as it was. -/
theorem struct_skip_semantics {τ μ : Type} (X : Externals τ μ)
    (fields : List (StructField (Value μ))) (e : Encoder) (d : Decoder) :
    Encoder.Encode (Value.struct fields) e =
      Encoder.EncodeElems ((fields.filter StructField.encodes).map StructField.value) e ∧
    Decoder.Decode X (Value.struct fields) d =
      (Decoder.decodeArrayLoop X ((fields.filter StructField.decodes).map StructField.value).length
          ((fields.filter StructField.decodes).map StructField.value) d).map
        (fun r => (Value.struct (StructField.putBack fields r.1), r.2.1, r.2.2)) ∧
    (∀ vs : List (Value μ), List.Forall₂
      (fun f g => g = if f.decodes then { f with value := g.value } else f)
      fields (StructField.putBack fields vs)) ∧
    (∀ (Name : String) (exported : Bool) (v : Value μ),
      StructField.encodes ⟨Name, "-", exported, v⟩ = false ∧
      StructField.decodes ⟨Name, "-", exported, v⟩ = false) := by
  refine ⟨?_, ?_, ?_, ?_⟩
  · rw [Encoder.Encode]
    exact EncodeFields_eq fields e
  · rw [Decoder.Decode, decodeStruct_eq X fields d]
    cases Decoder.decodeArrayLoop X _ ((fields.filter StructField.decodes).map StructField.value) d with
    | none => rfl
    | some r => rfl
  · intro vs
    refine List.Forall₂.imp ?_ (putBack_frame fields vs)
    intro f g h
    obtain ⟨h1, h2, h3, h4⟩ := h
    by_cases hf : f.decodes = true
    · rw [if_pos hf]
      cases f
      cases g
      simp only at h1 h2 h3
      subst h1 h2 h3
      rfl
    · rw [if_neg hf]
      exact h4 (by simpa using hf)
  · intro Name exported v
    constructor <;> simp [StructField.encodes, StructField.decodes]

/-- C13 fails as stated: a record whose only field is the unexported `hidden uint32` with
value 7, neither marked skip nor named `_`, is encoded as no bytes at all, not as the
encoding `07 00 00 00` of the field; and a nil interface field, which has no encoding of its
own, is passed over. -/
theorem struct_unexported_field_not_encoded :
    Encoder.Encode (Value.struct [⟨"hidden", "", false, Value.uint32 7⟩] : Value Unit) ⟨[]⟩ =
      some (⟨[]⟩, none) ∧
    Encoder.Encode (Value.uint32 7 : Value Unit) ⟨[]⟩ = some (⟨[7, 0, 0, 0]⟩, none) ∧
    Encoder.Encode (Value.struct [⟨"Next", "", true, Value.nilInterface⟩,
      ⟨"V", "", true, Value.uint16 1⟩] : Value Unit) ⟨[]⟩ = some (⟨[1, 0]⟩, none) ∧
    Encoder.Encode (Value.nilInterface : Value Unit) ⟨[]⟩ = none := by
  decide

/-- C15 fails on the code: `Encode` has no case for an optional schedule, so a present
schedule is written as the plain record, with no presence byte in front; the schedule with
`Version = 1` is written as `01 00 00 00`, and decoding those bytes as an optional schedule
takes the first byte for the presence flag and then panics on the three bytes left. -/
theorem optional_schedule_encode_no_presence_byte {μ : Type}
    (fields : List (StructField (Value μ))) (e : Encoder) :
    Encoder.Encode (Value.optionalProducerSchedule fields) e =
      Encoder.Encode (Value.struct fields) e ∧
    Encoder.Encode (Value.optionalProducerSchedule [⟨"Version", "", true, Value.uint32 1⟩] :
      Value Unit) ⟨[]⟩ = some (⟨[1, 0, 0, 0]⟩, none) ∧
    Decoder.Decode sampleRegistry
      (Value.optionalProducerSchedule [⟨"Version", "", true, Value.uint32 0⟩])
      (NewDecoder [1, 0, 0, 0] []) = none := by
  refine ⟨?_, by decide, by rfl⟩
  rw [Encoder.Encode, Encoder.Encode]

/-- C16 fails on the code: with message resolution on and the tag 5 registered, the empty
payload fails to decode against the registered record (`VarIntBufferSizeError`), yet
`Decode` of the envelope returns a nil error, with the partly decoded message stored in the
envelope. -/
theorem envelope_decode_drops_payload_error :
    sampleRegistry.Attributes 5 =
      some (Value.struct [⟨"S", "", true, Value.string StringType.string []⟩]) ∧
    sampleRegistry.DecodeAs (Value.struct [⟨"S", "", true, Value.string StringType.string []⟩])
        (NewDecoder [] []) =
      some (Value.struct [⟨"S", "", true, Value.string StringType.string []⟩],
        some Error.VarIntBufferSizeError) ∧
    Decoder.Decode sampleRegistry (Value.envelope ⟨0, 0, [], none, []⟩)
        (NewDecoder [1, 0, 0, 0, 5] []) =
      some (Value.envelope ⟨1, 5, [],
          some (Value.struct [⟨"S", "", true, Value.string StringType.string []⟩]), []⟩,
        none, ⟨[1, 0, 0, 0, 5], 6, true, true, true, []⟩) := by
  refine ⟨by rfl, by rfl, by rfl⟩

/-- C17: dynamic sequence round trip. For every sequence of `uint16`, `uint32`, `uint64` or
string values (with the length of the sequence and of each string below `2^56`, as every Go
slice in memory has it), `Encode` appends the varint of the length followed by the encodings
of the elements in order, and `Decode` of those bytes into a sequence of the same element
type returns the same elements in the same order, with no error and the cursor at the end
of the encoded bytes. For strings the buffer read is a Go slice, of a length below `2^63`. -/
theorem slice_round_trip {τ μ : Type} (X : Externals τ μ) (e : Encoder)
    (s16 s32 s64 : List Nat) (ss : List (List Nat)) (old : List (Value μ))
    (pre rest : List Nat) (f1 f2 f3 : Bool) (sp : List Nat)
    (h16 : ∀ x ∈ s16, x < 2 ^ 16) (h32 : ∀ x ∈ s32, x < 2 ^ 32) (h64 : ∀ x ∈ s64, x < 2 ^ 64)
    (hs : ∀ b ∈ ss, b.length < 2 ^ 56)
    (hl16 : s16.length < 2 ^ 56) (hl32 : s32.length < 2 ^ 56) (hl64 : s64.length < 2 ^ 56)
    (hls : ss.length < 2 ^ 56)
    (hbuf : (pre ++ (base128 ss.length ++ (ss.map (fun b => base128 b.length ++ b)).flatten)
      ++ rest).length < 2 ^ 63) :
    (Encoder.Encode (Value.slice (Value.uint16 0) (s16.map Value.uint16) : Value μ) e =
        some (⟨e.data ++ (base128 s16.length ++ (s16.map le16).flatten)⟩, none) ∧
      Decoder.Decode X (Value.slice (Value.uint16 0) old)
          ⟨pre ++ (base128 s16.length ++ (s16.map le16).flatten) ++ rest, pre.length,
            f1, f2, f3, sp⟩ =
        some (Value.slice (Value.uint16 0) (s16.map Value.uint16), none,
          ⟨pre ++ (base128 s16.length ++ (s16.map le16).flatten) ++ rest,
            pre.length + (base128 s16.length ++ (s16.map le16).flatten).length, f1, f2, f3, sp⟩)) ∧
    (Encoder.Encode (Value.slice (Value.uint32 0) (s32.map Value.uint32) : Value μ) e =
        some (⟨e.data ++ (base128 s32.length ++ (s32.map le32).flatten)⟩, none) ∧
      Decoder.Decode X (Value.slice (Value.uint32 0) old)
          ⟨pre ++ (base128 s32.length ++ (s32.map le32).flatten) ++ rest, pre.length,
            f1, f2, f3, sp⟩ =
        some (Value.slice (Value.uint32 0) (s32.map Value.uint32), none,
          ⟨pre ++ (base128 s32.length ++ (s32.map le32).flatten) ++ rest,
            pre.length + (base128 s32.length ++ (s32.map le32).flatten).length, f1, f2, f3, sp⟩)) ∧
    (Encoder.Encode (Value.slice (Value.uint64 0) (s64.map Value.uint64) : Value μ) e =
        some (⟨e.data ++ (base128 s64.length ++ (s64.map le64).flatten)⟩, none) ∧
      Decoder.Decode X (Value.slice (Value.uint64 0) old)
          ⟨pre ++ (base128 s64.length ++ (s64.map le64).flatten) ++ rest, pre.length,
            f1, f2, f3, sp⟩ =
        some (Value.slice (Value.uint64 0) (s64.map Value.uint64), none,
          ⟨pre ++ (base128 s64.length ++ (s64.map le64).flatten) ++ rest,
            pre.length + (base128 s64.length ++ (s64.map le64).flatten).length, f1, f2, f3, sp⟩)) ∧
    (Encoder.Encode (Value.slice (Value.string StringType.string [])
          (ss.map (Value.string StringType.string)) : Value μ) e =
        some (⟨e.data ++ (base128 ss.length ++
          (ss.map (fun b => base128 b.length ++ b)).flatten)⟩, none) ∧
      Decoder.Decode X (Value.slice (Value.string StringType.string []) old)
          ⟨pre ++ (base128 ss.length ++ (ss.map (fun b => base128 b.length ++ b)).flatten)
            ++ rest, pre.length, f1, f2, f3, sp⟩ =
        some (Value.slice (Value.string StringType.string [])
            (ss.map (Value.string StringType.string)), none,
          ⟨pre ++ (base128 ss.length ++ (ss.map (fun b => base128 b.length ++ b)).flatten)
            ++ rest,
            pre.length + (base128 ss.length ++
              (ss.map (fun b => base128 b.length ++ b)).flatten).length, f1, f2, f3, sp⟩)) ∧
    e.writeUVarInt (s16.length : Int) = some ⟨e.data ++ base128 s16.length⟩ ∧
    e.writeUVarInt (s32.length : Int) = some ⟨e.data ++ base128 s32.length⟩ ∧
    e.writeUVarInt (s64.length : Int) = some ⟨e.data ++ base128 s64.length⟩ ∧
    e.writeUVarInt (ss.length : Int) = some ⟨e.data ++ base128 ss.length⟩ := by
  have happ : ∀ (x : Encoder) (bs : List Nat), (⟨x.data ++ bs⟩ : Encoder) = x.append bs :=
    fun _ _ => rfl
  simp only [happ]
  have hv : ∀ n : Nat, n < 2 ^ 56 → e.writeUVarInt (n : Int) = some ⟨e.data ++ base128 n⟩ := by
    intro n hn
    have hw := writeUVarInt_eq e (n : Int) (Int.ofNat_nonneg _) (by exact_mod_cast hn)
    simpa using hw
  refine ⟨⟨?_, ?_⟩, ⟨?_, ?_⟩, ⟨?_, ?_⟩, ⟨?_, ?_⟩, hv _ hl16, hv _ hl32, hv _ hl64, hv _ hls⟩
  · rw [Encode_slice_eq _ _ e (by simpa using hl16), List.length_map,
      EncodeElems_map Value.uint16 le16 (fun _ => True) (fun x _ e => Encode_uint16 x e) s16
        (fun _ _ => trivial), append_append]
  · exact Decode_slice_map X (Value.uint16 0) Value.uint16 le16 (fun x => x < 2 ^ 16)
      (fun _ => True) rfl
      (fun x hx data pre rest pos f1 f2 f3 sp hd hp _ =>
        Decode_uint16_at X 0 x data pre rest pos f1 f2 f3 sp hd hp hx)
      s16 h16 hl16 old pre rest f1 f2 f3 sp trivial
  · rw [Encode_slice_eq _ _ e (by simpa using hl32), List.length_map,
      EncodeElems_map Value.uint32 le32 (fun _ => True) (fun x _ e => Encode_uint32 x e) s32
        (fun _ _ => trivial), append_append]
  · exact Decode_slice_map X (Value.uint32 0) Value.uint32 le32 (fun x => x < 2 ^ 32)
      (fun _ => True) rfl
      (fun x hx data pre rest pos f1 f2 f3 sp hd hp _ =>
        Decode_uint32_at X 0 x data pre rest pos f1 f2 f3 sp hd hp hx)
      s32 h32 hl32 old pre rest f1 f2 f3 sp trivial
  · rw [Encode_slice_eq _ _ e (by simpa using hl64), List.length_map,
      EncodeElems_map Value.uint64 le64 (fun _ => True) (fun x _ e => Encode_uint64 x e) s64
        (fun _ _ => trivial), append_append]
  · exact Decode_slice_map X (Value.uint64 0) Value.uint64 le64 (fun x => x < 2 ^ 64)
      (fun _ => True) rfl
      (fun x hx data pre rest pos f1 f2 f3 sp hd hp _ =>
        Decode_uint64_at X 0 x data pre rest pos f1 f2 f3 sp hd hp hx)
      s64 h64 hl64 old pre rest f1 f2 f3 sp trivial
  · rw [Encode_slice_eq _ _ e (by simpa using hls), List.length_map,
      EncodeElems_map (Value.string StringType.string) (fun b => base128 b.length ++ b)
        (fun b => b.length < 2 ^ 56) (fun b hb e => Encode_string b e hb) ss hs, append_append]
  · exact Decode_slice_map X (Value.string StringType.string [])
      (Value.string StringType.string) (fun b => base128 b.length ++ b)
      (fun b => b.length < 2 ^ 56) (fun n => n < 2 ^ 63) rfl
      (fun b hb data pre rest pos f1 f2 f3 sp hd hp hB =>
        Decode_string_at X [] b data pre rest pos f1 f2 f3 sp hd hp hb hB)
      ss hs hls old pre rest f1 f2 f3 sp hbuf

/-- Witness of C17 on the sequences `[1, 0x1234]`, `[100]`, `[2^40]` and `["hi", ""]`, read
at offset 1 of a buffer with one more byte after the sequence. -/
theorem slice_round_trip_witness :
    (Encoder.Encode (Value.slice (Value.uint16 0) (([1, 0x1234] : List Nat).map Value.uint16) : Value (Value Unit)) (⟨[]⟩ : Encoder) =
        some (⟨(⟨[]⟩ : Encoder).data ++ (base128 ([1, 0x1234] : List Nat).length ++ (([1, 0x1234] : List Nat).map le16).flatten)⟩, none) ∧
      Decoder.Decode sampleRegistry (Value.slice (Value.uint16 0) [])
          ⟨([255] : List Nat) ++ (base128 ([1, 0x1234] : List Nat).length ++ (([1, 0x1234] : List Nat).map le16).flatten) ++ [7], ([255] : List Nat).length, true, true, true, []⟩ =
        some (Value.slice (Value.uint16 0) (([1, 0x1234] : List Nat).map Value.uint16), none,
          ⟨([255] : List Nat) ++ (base128 ([1, 0x1234] : List Nat).length ++ (([1, 0x1234] : List Nat).map le16).flatten) ++ [7],
            ([255] : List Nat).length + (base128 ([1, 0x1234] : List Nat).length ++ (([1, 0x1234] : List Nat).map le16).flatten).length, true, true, true, []⟩)) ∧
    (Encoder.Encode (Value.slice (Value.uint32 0) (([100] : List Nat).map Value.uint32) : Value (Value Unit)) (⟨[]⟩ : Encoder) =
        some (⟨(⟨[]⟩ : Encoder).data ++ (base128 ([100] : List Nat).length ++ (([100] : List Nat).map le32).flatten)⟩, none) ∧
      Decoder.Decode sampleRegistry (Value.slice (Value.uint32 0) [])
          ⟨([255] : List Nat) ++ (base128 ([100] : List Nat).length ++ (([100] : List Nat).map le32).flatten) ++ [7], ([255] : List Nat).length, true, true, true, []⟩ =
        some (Value.slice (Value.uint32 0) (([100] : List Nat).map Value.uint32), none,
          ⟨([255] : List Nat) ++ (base128 ([100] : List Nat).length ++ (([100] : List Nat).map le32).flatten) ++ [7],
            ([255] : List Nat).length + (base128 ([100] : List Nat).length ++ (([100] : List Nat).map le32).flatten).length, true, true, true, []⟩)) ∧
    (Encoder.Encode (Value.slice (Value.uint64 0) (([2 ^ 40] : List Nat).map Value.uint64) : Value (Value Unit)) (⟨[]⟩ : Encoder) =
        some (⟨(⟨[]⟩ : Encoder).data ++ (base128 ([2 ^ 40] : List Nat).length ++ (([2 ^ 40] : List Nat).map le64).flatten)⟩, none) ∧
      Decoder.Decode sampleRegistry (Value.slice (Value.uint64 0) [])
          ⟨([255] : List Nat) ++ (base128 ([2 ^ 40] : List Nat).length ++ (([2 ^ 40] : List Nat).map le64).flatten) ++ [7], ([255] : List Nat).length, true, true, true, []⟩ =
        some (Value.slice (Value.uint64 0) (([2 ^ 40] : List Nat).map Value.uint64), none,
          ⟨([255] : List Nat) ++ (base128 ([2 ^ 40] : List Nat).length ++ (([2 ^ 40] : List Nat).map le64).flatten) ++ [7],
            ([255] : List Nat).length + (base128 ([2 ^ 40] : List Nat).length ++ (([2 ^ 40] : List Nat).map le64).flatten).length, true, true, true, []⟩)) ∧
    (Encoder.Encode (Value.slice (Value.string StringType.string [])
          (([[104, 105], []] : List (List Nat)).map (Value.string StringType.string)) : Value (Value Unit)) (⟨[]⟩ : Encoder) =
        some (⟨(⟨[]⟩ : Encoder).data ++ (base128 ([[104, 105], []] : List (List Nat)).length ++
          (([[104, 105], []] : List (List Nat)).map (fun b => base128 b.length ++ b)).flatten)⟩, none) ∧
      Decoder.Decode sampleRegistry (Value.slice (Value.string StringType.string []) [])
          ⟨([255] : List Nat) ++ (base128 ([[104, 105], []] : List (List Nat)).length ++ (([[104, 105], []] : List (List Nat)).map (fun b => base128 b.length ++ b)).flatten)
            ++ [7], ([255] : List Nat).length, true, true, true, []⟩ =
        some (Value.slice (Value.string StringType.string [])
            (([[104, 105], []] : List (List Nat)).map (Value.string StringType.string)), none,
          ⟨([255] : List Nat) ++ (base128 ([[104, 105], []] : List (List Nat)).length ++ (([[104, 105], []] : List (List Nat)).map (fun b => base128 b.length ++ b)).flatten)
            ++ [7],
            ([255] : List Nat).length + (base128 ([[104, 105], []] : List (List Nat)).length ++
              (([[104, 105], []] : List (List Nat)).map (fun b => base128 b.length ++ b)).flatten).length, true, true, true, []⟩)) ∧
    (⟨[]⟩ : Encoder).writeUVarInt (([1, 0x1234] : List Nat).length : Int) = some ⟨(⟨[]⟩ : Encoder).data ++ base128 ([1, 0x1234] : List Nat).length⟩ ∧
    (⟨[]⟩ : Encoder).writeUVarInt (([100] : List Nat).length : Int) = some ⟨(⟨[]⟩ : Encoder).data ++ base128 ([100] : List Nat).length⟩ ∧
    (⟨[]⟩ : Encoder).writeUVarInt (([2 ^ 40] : List Nat).length : Int) = some ⟨(⟨[]⟩ : Encoder).data ++ base128 ([2 ^ 40] : List Nat).length⟩ ∧
    (⟨[]⟩ : Encoder).writeUVarInt (([[104, 105], []] : List (List Nat)).length : Int) = some ⟨(⟨[]⟩ : Encoder).data ++ base128 ([[104, 105], []] : List (List Nat)).length⟩ :=
  slice_round_trip sampleRegistry ⟨[]⟩ [1, 0x1234] [100] [2 ^ 40] [[104, 105], []] [] [255] [7]
    true true true [] (by decide) (by decide) (by simp) (by simp) (by simp) (by simp) (by simp)
    (by simp) (by
      have h2 := base128_length_le_8 2 (by norm_num)
      have h0 := base128_length_le_8 0 (by norm_num)
      have e1 : ([[104, 105], []] : List (List Nat)).length = 2 := rfl
      have e2 : ([104, 105] : List Nat).length = 2 := rfl
      have e3 : ([] : List Nat).length = 0 := rfl
      simp only [List.map_cons, List.map_nil, List.flatten_cons, List.flatten_nil,
        List.length_append, e1, e2, e3]
      simp only [List.length_cons, List.length_nil]
      omega)

/-- C18 fails on the code: for a value of each of the six name types the type assertion
`cv.(string)` of `Encode` panics (`none`), whatever the name and the encoder; only a plain
string reaches `writeString`. -/
theorem name_encode_panics {μ : Type} (s : List Nat) (e : Encoder) :
    Encoder.Encode (Value.string StringType.Name s : Value μ) e = none ∧
    Encoder.Encode (Value.string StringType.AccountName s : Value μ) e = none ∧
    Encoder.Encode (Value.string StringType.PermissionName s : Value μ) e = none ∧
    Encoder.Encode (Value.string StringType.ActionName s : Value μ) e = none ∧
    Encoder.Encode (Value.string StringType.TableName s : Value μ) e = none ∧
    Encoder.Encode (Value.string StringType.ScopeName s : Value μ) e = none ∧
    Encoder.Encode (Value.string StringType.string s : Value μ) e =
      Encoder.returned (e.writeString s) ∧
    Encoder.Encode (Value.string StringType.string [101, 111, 115] : Value μ) ⟨[]⟩ =
      some (⟨[3, 101, 111, 115]⟩, none) ∧
    Encoder.Encode (Value.string StringType.AccountName [101, 111, 115] : Value μ) ⟨[]⟩ = none := by
  refine ⟨?_, ?_, ?_, ?_, ?_, ?_, ?_, by rfl, by rfl⟩ <;> simp [Encoder.Encode]

/-- C20: the encoder has no case of its own for a byte sequence, yet for every byte
sequence `b` with `len(b) < 2^56` the generic sequence path of `Encode` (varint count, then
each element through `writeByte`) appends exactly the bytes of `writeByteArray(b)`, and
`Decode` into a byte sequence, which goes through `readByteArray`, returns `b` from them.
The buffer read is a Go slice, of a length below `2^63`. -/
theorem byte_slice_generic_path {τ μ : Type} (X : Externals τ μ) (e : Encoder)
    (b : List Nat) (old : List (Value μ)) (pre rest : List Nat) (f1 f2 f3 : Bool) (sp : List Nat)
    (hb : b.length < 2 ^ 56) (hbuf : (pre ++ (base128 b.length ++ b) ++ rest).length < 2 ^ 63) :
    Encoder.Encode (Value.slice (Value.byte ByteType.byte 0) (b.map (Value.byte ByteType.byte)) :
        Value μ) e = Encoder.returned (e.writeByteArray b) ∧
    Encoder.Encode (Value.slice (Value.byte ByteType.byte 0) (b.map (Value.byte ByteType.byte)) :
        Value μ) e = some (⟨e.data ++ (base128 b.length ++ b)⟩, none) ∧
    e.writeByteArray b = some ⟨e.data ++ (base128 b.length ++ b)⟩ ∧
    Decoder.Decode X (Value.slice (Value.byte ByteType.byte 0) old)
        ⟨pre ++ (base128 b.length ++ b) ++ rest, pre.length, f1, f2, f3, sp⟩ =
      some (Value.slice (Value.byte ByteType.byte 0) (b.map (Value.byte ByteType.byte)), none,
        ⟨pre ++ (base128 b.length ++ b) ++ rest,
          pre.length + (base128 b.length).length + b.length, f1, f2, f3, sp⟩) := by
  have happ : ∀ (x : Encoder) (bs : List Nat), (⟨x.data ++ bs⟩ : Encoder) = x.append bs :=
    fun _ _ => rfl
  simp only [happ]
  have hr := readByteArray_eq b pre rest f1 f2 f3 sp hb hbuf
  have he : Encoder.Encode (Value.slice (Value.byte ByteType.byte 0)
      (b.map (Value.byte ByteType.byte)) : Value μ) e =
      some (e.append (base128 b.length ++ b), none) := by
    rw [Encode_slice_eq _ _ e (by simpa using hb), List.length_map,
      EncodeElems_map (Value.byte ByteType.byte) (fun x => [x]) (fun _ => True)
        (fun x _ e => Encode_byte x e) b (fun _ _ => trivial), append_append,
      flatten_singletons]
  refine ⟨?_, he, writeByteArray_eq e b hb, ?_⟩
  · rw [he, writeByteArray_eq e b hb]
    rfl
  · rw [Decoder.Decode]
    simp only [Value.isUint8, if_true, hr]

/-- Witness of C20 at the three bytes `[7, 8, 9]`, read at offset 1 of a 6-byte buffer. -/
theorem byte_slice_generic_path_witness :
    Encoder.Encode (Value.slice (Value.byte ByteType.byte 0)
        (([7, 8, 9] : List Nat).map (Value.byte ByteType.byte)) : Value (Value Unit)) ⟨[]⟩ =
      Encoder.returned ((⟨[]⟩ : Encoder).writeByteArray [7, 8, 9]) ∧
    Encoder.Encode (Value.slice (Value.byte ByteType.byte 0)
        (([7, 8, 9] : List Nat).map (Value.byte ByteType.byte)) : Value (Value Unit)) ⟨[]⟩ =
      some (⟨(⟨[]⟩ : Encoder).data ++ (base128 ([7, 8, 9] : List Nat).length ++ [7, 8, 9])⟩,
        none) ∧
    (⟨[]⟩ : Encoder).writeByteArray [7, 8, 9] =
      some ⟨(⟨[]⟩ : Encoder).data ++ (base128 ([7, 8, 9] : List Nat).length ++ [7, 8, 9])⟩ ∧
    Decoder.Decode sampleRegistry (Value.slice (Value.byte ByteType.byte 0) [])
        ⟨[255] ++ (base128 ([7, 8, 9] : List Nat).length ++ [7, 8, 9]) ++ [42],
          ([255] : List Nat).length, true, true, true, []⟩ =
      some (Value.slice (Value.byte ByteType.byte 0)
          (([7, 8, 9] : List Nat).map (Value.byte ByteType.byte)), none,
        ⟨[255] ++ (base128 ([7, 8, 9] : List Nat).length ++ [7, 8, 9]) ++ [42],
          ([255] : List Nat).length + (base128 ([7, 8, 9] : List Nat).length).length +
            ([7, 8, 9] : List Nat).length, true, true, true, []⟩) :=
  byte_slice_generic_path sampleRegistry ⟨[]⟩ [7, 8, 9] [] [255] [42] true true true []
    (by norm_num) (by
      have h := base128_length_le_8 3 (by norm_num)
      have e3 : ([7, 8, 9] : List Nat).length = 3 := rfl
      rw [e3]
      simp only [List.length_append, List.length_cons, List.length_nil]
      omega)

end Eos
